import Mathlib

/-!
# neat-sail: the discrete-time sailing physics and reward engine

A shallow embedding of `env.go`, `qol.go`, `transform_funcs.go` and of `BasicEnv`
from `main.go`.

Number model.  The program computes in `float64`; here every `float64` is a
value of a linearly ordered field `K` (the theorems are stated for every such
field, or for `K = ℝ` where they need the real functions), so rounding,
infinities and NaN are outside the model.  The functions of Go's `math` package
that the program calls are the fields of `GoMath`; over `ℝ` they are the real
sine, cosine, square root, hyperbolic tangent and the number π.

Integer model.  Go's `int` is `Int`.  The waypoint counters start at zero in
`BasicEnv` and grow by at most one per boat per `Step`, and a target index that
passed the bounds check of `e.Track[...]` is below `len(e.Track)`, so the
additions `+ 1` are modelled without 64-bit wrap-around.

Memory model.  `e.Boats` is a slice of pointers in the program; here it is a
list of boat values, so two entries never alias and none is nil.  A run-time
panic (index out of range) is the result `none`.
-/

namespace NeatSail

/-- The functions and the constant of Go's `math` package used by the program:
`math.Sincos`, `math.Sqrt` (also behind `math.Hypot`), `math.Tanh`, `math.Pi`. -/
class GoMath (K : Type) where
  Sin : K → K
  Cos : K → K
  Sqrt : K → K
  Tanh : K → K
  Pi : K

/-- The real-number reading of Go's `math` package. -/
noncomputable instance realGoMath : GoMath ℝ where
  Sin := Real.sin
  Cos := Real.cos
  Sqrt := Real.sqrt
  Tanh := Real.tanh
  Pi := Real.pi

/-! ## `pixel.Vec`

The vector type of the `github.com/faiface/pixel` package, with the methods the
program calls, as that package defines them. -/

/-- The type `pixel.Vec`: a pair of `float64` coordinates. -/
@[ext]
structure Vec (K : Type) where
  X : K
  Y : K

namespace Vec

variable {K : Type} [LinearOrderedField K] [GoMath K]

/-- The constructor `pixel.V(x, y)`. -/
def V (x y : K) : Vec K := ⟨x, y⟩

/-- The constant `pixel.ZV`, the zero vector. -/
def ZV : Vec K := ⟨0, 0⟩

/-- The method `u.Add(v)`. -/
def Add (u v : Vec K) : Vec K := ⟨u.X + v.X, u.Y + v.Y⟩

/-- The method `u.Sub(v)`. -/
def Sub (u v : Vec K) : Vec K := ⟨u.X - v.X, u.Y - v.Y⟩

/-- The method `u.Scaled(c)`. -/
def Scaled (u : Vec K) (c : K) : Vec K := ⟨u.X * c, u.Y * c⟩

/-- The method `u.Dot(v)`. -/
def Dot (u v : Vec K) : K := u.X * v.X + u.Y * v.Y

/-- The method `u.Len()`, which is `math.Hypot(u.X, u.Y)`, the square root of
`u.X*u.X + u.Y*u.Y`. -/
def Len (u : Vec K) : K := GoMath.Sqrt (u.X * u.X + u.Y * u.Y)

/-- The method `u.Unit()`. Its body in the package is
`if u.X == 0 && u.Y == 0 { return Vec{1, 0} }` followed by
`return u.Scaled(1 / u.Len())`: the zero vector is sent to `(1, 0)` by an
explicit test, every other vector is scaled by the inverse of its length. -/
def Unit (u : Vec K) : Vec K :=
  if u.X = 0 ∧ u.Y = 0 then ⟨1, 0⟩ else u.Scaled (1 / u.Len)

/-- The method `u.Rotated(angle)`: with `sin, cos := math.Sincos(angle)` the
result is `(u.X*cos - u.Y*sin, u.X*sin + u.Y*cos)`. -/
def Rotated (u : Vec K) (angle : K) : Vec K :=
  ⟨u.X * GoMath.Cos angle - u.Y * GoMath.Sin angle,
   u.X * GoMath.Sin angle + u.Y * GoMath.Cos angle⟩

end Vec

/-! ## `qol.go` and `transform_funcs.go` -/

/-- The function `clamp` of `qol.go`. -/
def clamp {T : Type} [LinearOrder T] (x xMin xMax : T) : T :=
  if x < xMin then xMin
  else if x > xMax then xMax
  else x

/-- The function `TransCenteredRolloff` of `transform_funcs.go`. -/
def TransCenteredRolloff {K : Type} [LinearOrderedField K] [GoMath K]
    (x nominalRange : K) : K :=
  GoMath.Tanh (x / nominalRange)

/-! ## `env.go`: boats -/

/-- The struct `Boat`. -/
structure Boat (K : Type) where
  Pos : Vec K
  Rot : K
  Vel : Vec K
  RotVel : K
  SailArea : K
  DragForward : K
  DragBack : K
  DragPerp : K
  AngularDrag : K
  RudderForce : K
  Length : K
  MaxSailAngle : K
  MaxRudderAngle : K
  SailAngle : K
  RudderAngle : K

/-- The struct `Env`. -/
structure Env (K : Type) where
  WindVec : Vec K
  Boats : List (Boat K)
  WindForceMultiplier : K
  OceanOffset : Vec K
  Track : List (Vec K)
  PointHitDist : K
  CurrentPoints : List Int
  NumWaypointsReached : List Int

section Model

variable {K : Type} [LinearOrderedField K] [GoMath K]

/-- The function `NewDefaultBoat`: the fields it does not set are zero. -/
def NewDefaultBoat : Boat K where
  Pos := ⟨0, 0⟩
  Rot := 0
  Vel := ⟨0, 0⟩
  RotVel := 0
  SailArea := 1
  DragForward := 0.1
  DragBack := 2
  DragPerp := 4
  AngularDrag := 20
  RudderForce := 0.3
  Length := 1
  MaxSailAngle := GoMath.Pi / 2
  MaxRudderAngle := GoMath.Pi / 2
  SailAngle := 0
  RudderAngle := 0

/-- The function `BasicEnv` of `main.go`; `make([]int, len(boats))` is a slice
of zeros. -/
def BasicEnv (track : List (Vec K)) (boats : List (Boat K)) : Env K where
  WindVec := Vec.V 2 0
  Boats := boats
  WindForceMultiplier := 1
  OceanOffset := ⟨0, 0⟩
  PointHitDist := 1
  Track := track
  CurrentPoints := List.replicate boats.length 0
  NumWaypointsReached := List.replicate boats.length 0

/-- The function `reflectVec`. -/
def reflectVec (dir normal : Vec K) : Vec K :=
  let dottedF := dir.Dot normal
  dir.Sub (normal.Scaled (2 * dottedF))

/-- One point of `NewTrack`: the first draw `u` gives the radius, the second
draw `w` the angle. -/
def trackPoint (distance u w : K) : Vec K :=
  (Vec.V 0 (GoMath.Sqrt u * distance)).Rotated (w * GoMath.Pi * 2)

/-- The loop of `NewTrack`, with the random source an explicit sequence of
draws: `rand.Float64()` returns `draws k` at the `k`-th call, and the point of
index `i` takes two draws, the radius draw first. `next` counts the draws
already taken. -/
def newTrackFrom (draws : Nat → K) (distance : K) : Nat → Nat → List (Vec K)
  | 0, _ => []
  | n + 1, next =>
    trackPoint distance (draws next) (draws (next + 1)) ::
      newTrackFrom draws distance n (next + 2)

/-- The function `NewTrack(distance, points)` run on the draws `draws`. -/
def NewTrack (draws : Nat → K) (distance : K) (points : Nat) : List (Vec K) :=
  newTrackFrom draws distance points 0

/-! ### The body of the loop of `Env.Step`, stage by stage -/

/-- Lines 88-89 of `Step`: both control angles are clamped. -/
def clampControls (b : Boat K) : Boat K :=
  let b1 := { b with RudderAngle := clamp b.RudderAngle (-b.MaxRudderAngle) b.MaxRudderAngle }
  { b1 with SailAngle := clamp b1.SailAngle (-b1.MaxSailAngle) b1.MaxSailAngle }

/-- The variable `relativeWindVec` of `Step`. -/
def relativeWindVec (windVec : Vec K) (b : Boat K) : Vec K :=
  windVec.Sub b.Vel

/-- The variable `sailNormal` of `Step` after the test that turns it towards
the wind (lines 91-96). -/
def sailNormal (windVec : Vec K) (b : Boat K) : Vec K :=
  let n := (Vec.V 1 0).Rotated (b.SailAngle + b.Rot)
  if n.Dot (relativeWindVec windVec b).Unit > 0 then n.Scaled (-1) else n

/-- The variable `windSailForce` of `Step` (lines 97-99). -/
def windSailForce (windVec : Vec K) (b : Boat K) : Vec K :=
  let n := sailNormal windVec b
  let w := relativeWindVec windVec b
  let reflectedRelativeWindVec := reflectVec w n
  let windChangeVec := reflectedRelativeWindVec.Sub w
  windChangeVec.Scaled (-b.SailArea * (n.Scaled (-1)).Dot w.Unit)

/-- Line 101 of `Step`: the wind force is added to the velocity. -/
def applyWind (windVec : Vec K) (windForceMultiplier dt : K) (b : Boat K) : Boat K :=
  { b with Vel := b.Vel.Add ((windSailForce windVec b).Scaled (dt * windForceMultiplier)) }

/-- The variable `paraVec` of `Step`: the forward direction of the hull. -/
def paraVec (b : Boat K) : Vec K := (Vec.V 0 1).Rotated b.Rot

/-- The variable `perpVec` of `Step`: the sideways direction of the hull. -/
def perpVec (b : Boat K) : Vec K := (Vec.V 1 0).Rotated b.Rot

/-- The variable `paraDrag` of `Step` (lines 106-111). -/
def paraDrag (b : Boat K) (velPara : K) : K :=
  if velPara > 0 then b.DragForward else b.DragBack

/-- The adjustment that `Step` computes three times (for `velAdjPara`,
`velAdjPerp` and `rotVelAdj`): `v*coeff*dt`, replaced by `v` when it is larger
than `v` in absolute value. -/
def dragAdj (v coeff dt : K) : K :=
  let adj := v * coeff * dt
  if |adj| > |v| then v else adj

/-- The value of `velPara` when it is first assigned (line 105). -/
def velParaBefore (b : Boat K) : K := b.Vel.Dot (paraVec b)

/-- The value of `velPerp` when it is first assigned (line 105). -/
def velPerpBefore (b : Boat K) : K := b.Vel.Dot (perpVec b)

/-- The value of `velPara` after line 119. -/
def velParaAfter (dt : K) (b : Boat K) : K :=
  velParaBefore b - dragAdj (velParaBefore b) (paraDrag b (velParaBefore b)) dt

/-- The value of `velPerp` after line 119. -/
def velPerpAfter (dt : K) (b : Boat K) : K :=
  velPerpBefore b - dragAdj (velPerpBefore b) b.DragPerp dt

/-- Lines 104-120 of `Step`: the velocity is rebuilt from its two damped
components. -/
def applyDrag (dt : K) (b : Boat K) : Boat K :=
  let para := (paraVec b).Scaled (velParaAfter dt b)
  let perp := (perpVec b).Scaled (velPerpAfter dt b)
  { b with Vel := para.Add perp }

/-- The value of `b.RotVel` after line 123, where `velPara` is the damped
forward component. -/
def rotVelRudder (velPara : K) (b : Boat K) : K :=
  b.RotVel + -b.RudderAngle * velPara * b.RudderForce

/-- Lines 123-128 of `Step`: rudder torque, then angular drag. -/
def applyRudder (dt velPara : K) (b : Boat K) : Boat K :=
  let r := rotVelRudder velPara b
  { b with RotVel := r - dragAdj r b.AngularDrag dt }

/-- Line 131 of `Step`: the velocity turns with the hull. -/
def rotateVel (dt : K) (b : Boat K) : Boat K :=
  { b with Vel := b.Vel.Rotated (b.RotVel * dt) }

/-- Lines 134-135 of `Step`: position and heading are integrated. -/
def integratePose (dt : K) (b : Boat K) : Boat K :=
  { b with Pos := b.Pos.Add (b.Vel.Scaled dt), Rot := b.Rot + b.RotVel * dt }

/-- The boat after the wind stage, the state in which the drag stage starts. -/
def afterWind (windVec : Vec K) (windForceMultiplier dt : K) (b : Boat K) : Boat K :=
  applyWind windVec windForceMultiplier dt (clampControls b)

/-- Lines 88-135 of `Step`: everything the loop body does to the boat itself. -/
def moveBoat (windVec : Vec K) (windForceMultiplier dt : K) (b : Boat K) : Boat K :=
  let b1 := afterWind windVec windForceMultiplier dt b
  let b2 := applyDrag dt b1
  let b3 := applyRudder dt (velParaAfter dt b1) b2
  integratePose dt (rotateVel dt b3)

/-- Indexing of a Go slice by an `int`: out of range is a panic. -/
def sliceAt {α : Type} (xs : List α) (i : Int) : Option α :=
  if i < 0 then none else xs[i.toNat]?

/-- One pass of the loop body of `Step`, for the boat of index `bi`: the boat is
moved, then the waypoint test of lines 138-141 updates the two counters. -/
def stepBoat (dt : K) (e : Env K) (bi : Nat) : Option (Env K) := do
  let b ← e.Boats[bi]?
  let b1 := moveBoat e.WindVec e.WindForceMultiplier dt b
  let e1 := { e with Boats := e.Boats.set bi b1 }
  let cp ← e1.CurrentPoints[bi]?
  let target ← sliceAt e1.Track cp
  if ((b1.Pos.Sub target).Len ≤ e1.PointHitDist) then
    let reached ← e1.NumWaypointsReached[bi]?
    pure { e1 with
      CurrentPoints := e1.CurrentPoints.set bi (Int.tmod (cp + 1) e1.Track.length),
      NumWaypointsReached := e1.NumWaypointsReached.set bi (reached + 1) }
  else
    pure e1

/-- The method `Env.Step(dt)`: the ocean offset moves, then the loop body runs
for every boat index in order. -/
def Env.Step (e : Env K) (dt : K) : Option (Env K) :=
  let e0 := { e with OceanOffset := e.OceanOffset.Add (e.WindVec.Scaled dt) }
  (List.range e0.Boats.length).foldlM (stepBoat dt) e0

/-- The method `Env.Step(dt)` called `n` times in a row. -/
def Env.StepN (dt : K) : Nat → Env K → Option (Env K)
  | 0, e => some e
  | n + 1, e => (e.Step dt).bind (Env.StepN dt n)

/-- The value line 152 of `GetFitnesses` stores for a boat at distance `d` from
its target with `n` waypoints reached. -/
def fitnessValue (d : K) (n : Int) : K := (1 / (d + 1)) + (n : K)

/-- The loop body of `GetFitnesses` for the boat `b` of index `i`. -/
def fitnessAt (e : Env K) (i : Nat) (b : Boat K) : Option K := do
  let cp ← e.CurrentPoints[i]?
  let currentPoint ← sliceAt e.Track cp
  let distToCurrentPoint := (b.Pos.Sub currentPoint).Len
  let reached ← e.NumWaypointsReached[i]?
  pure (fitnessValue distToCurrentPoint reached)

/-- The method `Env.GetFitnesses()`. -/
def Env.GetFitnesses (e : Env K) : Option (List K) :=
  (List.range e.Boats.length).mapM fun i => do
    let b ← e.Boats[i]?
    fitnessAt e i b

/-- The nine entries `GetInputs` stores for the boat `b` whose target waypoint
is `target`. -/
def inputsOf (windVec : Vec K) (target : Vec K) (b : Boat K) : List K :=
  let currPointVec := target.Sub b.Pos
  [ b.SailAngle / b.MaxSailAngle,
    b.RudderAngle / b.MaxRudderAngle,
    TransCenteredRolloff (b.Vel.Dot ((Vec.V 0 1).Rotated b.Rot)) 5,
    TransCenteredRolloff (b.Vel.Dot ((Vec.V 1 0).Rotated b.Rot)) 5,
    TransCenteredRolloff b.RotVel (GoMath.Pi / 2),
    TransCenteredRolloff (windVec.Dot ((Vec.V 0 1).Rotated b.Rot)) 5,
    TransCenteredRolloff (windVec.Dot ((Vec.V 1 0).Rotated b.Rot)) 5,
    TransCenteredRolloff (currPointVec.Dot ((Vec.V 0 1).Rotated b.Rot)) 5,
    TransCenteredRolloff (currPointVec.Dot ((Vec.V 1 0).Rotated b.Rot)) 5 ]

/-- The loop body of `GetInputs` for the boat `b` of index `i`. -/
def inputsAt (e : Env K) (i : Nat) (b : Boat K) : Option (List K) := do
  let cp ← e.CurrentPoints[i]?
  let target ← sliceAt e.Track cp
  pure (inputsOf e.WindVec target b)

/-- The method `Env.GetInputs()`. -/
def Env.GetInputs (e : Env K) : Option (List (List K)) :=
  (List.range e.Boats.length).mapM fun i => do
    let b ← e.Boats[i]?
    inputsAt e i b

/-- The environments on which `Step`, `GetInputs` and `GetFitnesses` do not
panic: the two counter slices are as long as the boat slice (as `BasicEnv`
makes them) and every target index is a valid index of the track. -/
def Env.WellFormed (e : Env K) : Prop :=
  e.CurrentPoints.length = e.Boats.length ∧
  e.NumWaypointsReached.length = e.Boats.length ∧
  ∀ cp ∈ e.CurrentPoints, 0 ≤ cp ∧ cp < (e.Track.length : Int)

instance (e : Env K) : Decidable e.WellFormed := by
  unfold Env.WellFormed
  infer_instance

/-- The test of line 138 for the moved boat `b1` and the waypoint `target`. -/
def hitsWaypoint (e : Env K) (b1 : Boat K) (target : Vec K) : Prop :=
  (b1.Pos.Sub target).Len ≤ e.PointHitDist

instance (e : Env K) (b1 : Boat K) (target : Vec K) : Decidable (hitsWaypoint e b1 target) := by
  unfold hitsWaypoint
  infer_instance

/-- The target index lines 138-141 leave for a boat that was moved to `b1`
while targeting `target`, the waypoint of index `cp`. -/
def nextPoint (e : Env K) (b1 : Boat K) (cp : Int) (target : Vec K) : Int :=
  if hitsWaypoint e b1 target then Int.tmod (cp + 1) e.Track.length else cp

/-- The reached-count lines 138-141 leave for that boat. -/
def nextReached (e : Env K) (b1 : Boat K) (n : Int) (target : Vec K) : Int :=
  if hitsWaypoint e b1 target then n + 1 else n

/-- The state of the loop of `Step` that started in `e0`, once the boats of
index below `k` have been processed: nothing but the three per-boat slices has
changed, the entries from `k` on are untouched, and each entry below `k` holds
the moved boat and its updated counters. -/
def LoopInv (dt : K) (e0 : Env K) (k : Nat) (e : Env K) : Prop :=
  e.WindVec = e0.WindVec ∧ e.WindForceMultiplier = e0.WindForceMultiplier ∧
  e.OceanOffset = e0.OceanOffset ∧ e.Track = e0.Track ∧
  e.PointHitDist = e0.PointHitDist ∧
  e.Boats.length = e0.Boats.length ∧
  e.CurrentPoints.length = e0.CurrentPoints.length ∧
  e.NumWaypointsReached.length = e0.NumWaypointsReached.length ∧
  (∀ j, k ≤ j → e.Boats[j]? = e0.Boats[j]? ∧
    e.CurrentPoints[j]? = e0.CurrentPoints[j]? ∧
    e.NumWaypointsReached[j]? = e0.NumWaypointsReached[j]?) ∧
  (∀ j, j < k → ∀ b cp n target,
    e0.Boats[j]? = some b → e0.CurrentPoints[j]? = some cp →
    e0.NumWaypointsReached[j]? = some n → sliceAt e0.Track cp = some target →
    e.Boats[j]? = some (moveBoat e0.WindVec e0.WindForceMultiplier dt b) ∧
    e.CurrentPoints[j]? =
      some (nextPoint e0 (moveBoat e0.WindVec e0.WindForceMultiplier dt b) cp target) ∧
    e.NumWaypointsReached[j]? =
      some (nextReached e0 (moveBoat e0.WindVec e0.WindForceMultiplier dt b) n target))

/-- A boat with the hull of `NewDefaultBoat`, heading, angular velocity and both
control angles zero, at position `p` and moving with velocity `(v, 0)`. -/
def lineBoat (p : Vec K) (v : K) : Boat K :=
  { (NewDefaultBoat : Boat K) with Pos := p, Vel := ⟨v, 0⟩ }

/-- The x-velocity one `Step(1/60)` in the wind `(2, 0)` gives a `lineBoat` of
x-velocity `v < 2`: the sail adds `2*(2 - v)/60`, then the lateral drag
`DragPerp = 4` removes the fraction `4/60`. -/
def lineVel (v : K) : K := (v + 2 * (2 - v) * (1 / 60)) * (1 - 4 * (1 / 60))

/-- A number is zero or has the sign of `v`. -/
def ZeroOrSameSign (v r : K) : Prop :=
  r = 0 ∨ (0 < v ∧ 0 < r) ∨ (v < 0 ∧ r < 0)

end Model

/-! ## Lemmas -/

section Lemmas

variable {K : Type} [LinearOrderedField K]

theorem clamp_mem {T : Type} [LinearOrder T] (x lo hi : T) (h : lo ≤ hi) :
    lo ≤ clamp x lo hi ∧ clamp x lo hi ≤ hi := by
  unfold clamp
  split_ifs with h1 h2
  · exact ⟨le_refl _, h⟩
  · exact ⟨h, le_refl _⟩
  · exact ⟨not_lt.mp h1, not_lt.mp h2⟩

theorem clamp_of_mem {T : Type} [LinearOrder T] (x lo hi : T) (h1 : lo ≤ x) (h2 : x ≤ hi) :
    clamp x lo hi = x := by
  unfold clamp
  rw [if_neg (not_lt.mpr h1), if_neg (not_lt.mpr h2)]

theorem dragAdj_sign (v coeff dt : K) : ZeroOrSameSign v (v - dragAdj v coeff dt) := by
  unfold ZeroOrSameSign dragAdj
  simp only
  split_ifs with h
  · left; ring
  · rw [not_lt] at h
    rcases lt_trichotomy v 0 with hv | hv | hv
    · rw [abs_of_neg hv, abs_le, neg_neg] at h
      rcases eq_or_lt_of_le h.1 with h3 | h3
      · left; linarith
      · right; right; exact ⟨hv, by linarith⟩
    · left; rw [hv]; ring
    · rw [abs_of_pos hv, abs_le] at h
      rcases eq_or_lt_of_le h.2 with h3 | h3
      · left; linarith
      · right; left; exact ⟨hv, by linarith⟩

end Lemmas

/-! ## The loop of `Step` -/

section StepLemmas

variable {K : Type} [LinearOrderedField K] [GoMath K]

theorem sliceAt_of_mem_range {α : Type} (xs : List α) (i : Int) (h0 : 0 ≤ i)
    (h1 : i < (xs.length : Int)) : ∃ x, sliceAt xs i = some x := by
  unfold sliceAt
  rw [if_neg (not_lt.mpr h0)]
  have h2 : i.toNat < xs.length := by omega
  exact ⟨xs[i.toNat], List.getElem?_eq_getElem h2⟩

theorem sliceAt_some_range {α : Type} (xs : List α) (i : Int) (x : α)
    (h : sliceAt xs i = some x) : 0 ≤ i ∧ i < (xs.length : Int) := by
  unfold sliceAt at h
  split_ifs at h with h0
  have h2 := (List.getElem?_eq_some_iff.mp h).1
  omega

theorem stepBoat_eq (dt : K) (e : Env K) (bi : Nat) (b : Boat K) (cp n : Int)
    (target : Vec K) (hb : e.Boats[bi]? = some b) (hcp : e.CurrentPoints[bi]? = some cp)
    (ht : sliceAt e.Track cp = some target) (hn : e.NumWaypointsReached[bi]? = some n) :
    stepBoat dt e bi = some (
      if hitsWaypoint e (moveBoat e.WindVec e.WindForceMultiplier dt b) target then
        { e with
          Boats := e.Boats.set bi (moveBoat e.WindVec e.WindForceMultiplier dt b),
          CurrentPoints := e.CurrentPoints.set bi (Int.tmod (cp + 1) e.Track.length),
          NumWaypointsReached := e.NumWaypointsReached.set bi (n + 1) }
      else
        { e with Boats := e.Boats.set bi (moveBoat e.WindVec e.WindForceMultiplier dt b) }) := by
  unfold stepBoat hitsWaypoint
  simp only [hb, hcp, ht, hn, Option.bind_eq_bind, Option.some_bind, Option.pure_def]
  split_ifs <;> simp [hn]

omit [LinearOrderedField K] [GoMath K] in
theorem wellFormed_entries (e : Env K) (hwf : e.WellFormed) (k : Nat)
    (hk : k < e.Boats.length) :
    ∃ b cp n target, e.Boats[k]? = some b ∧ e.CurrentPoints[k]? = some cp ∧
      e.NumWaypointsReached[k]? = some n ∧ sliceAt e.Track cp = some target := by
  obtain ⟨h1, h2, h3⟩ := hwf
  have hk1 : k < e.CurrentPoints.length := by omega
  have hk2 : k < e.NumWaypointsReached.length := by omega
  have hmem : e.CurrentPoints[k] ∈ e.CurrentPoints := List.getElem_mem hk1
  obtain ⟨target, ht⟩ := sliceAt_of_mem_range e.Track _ (h3 _ hmem).1 (h3 _ hmem).2
  exact ⟨e.Boats[k], e.CurrentPoints[k], e.NumWaypointsReached[k], target,
    List.getElem?_eq_getElem hk, List.getElem?_eq_getElem hk1,
    List.getElem?_eq_getElem hk2, ht⟩

theorem stepBoat_inv (dt : K) (e0 e : Env K) (k : Nat) (hwf : e0.WellFormed)
    (hk : k < e0.Boats.length) (hinv : LoopInv dt e0 k e) :
    ∃ e2, stepBoat dt e k = some e2 ∧ LoopInv dt e0 (k + 1) e2 := by
  obtain ⟨b, cp, n, target, hb, hcp, hn, ht⟩ := wellFormed_entries e0 hwf k hk
  obtain ⟨hW, hM, hO, hT, hP, hlb, hlc, hln, hrest, hdone⟩ := hinv
  obtain ⟨hb1, hcp1, hn1⟩ := hrest k (le_refl k)
  have hkc : k < e0.CurrentPoints.length := (List.getElem?_eq_some_iff.mp hcp).1
  have hkn : k < e0.NumWaypointsReached.length := (List.getElem?_eq_some_iff.mp hn).1
  have hstep := stepBoat_eq dt e k b cp n target (hb1.trans hb) (hcp1.trans hcp)
    (by rw [hT]; exact ht) (hn1.trans hn)
  refine ⟨_, hstep, ?_⟩
  have hhit : hitsWaypoint e (moveBoat e.WindVec e.WindForceMultiplier dt b) target ↔
      hitsWaypoint e0 (moveBoat e0.WindVec e0.WindForceMultiplier dt b) target := by
    unfold hitsWaypoint
    rw [hW, hM, hP]
  by_cases hh : hitsWaypoint e0 (moveBoat e0.WindVec e0.WindForceMultiplier dt b) target
  · rw [if_pos (hhit.mpr hh)]
    refine ⟨hW, hM, hO, hT, hP, ?_, ?_, ?_, ?_, ?_⟩
    · simpa using hlb
    · simpa using hlc
    · simpa using hln
    · intro j hj
      have hne : k ≠ j := by omega
      obtain ⟨r1, r2, r3⟩ := hrest j (by omega)
      simp only [List.getElem?_set_ne hne]
      exact ⟨r1, r2, r3⟩
    · intro j hj b2 cp2 n2 target2 hb2 hcp2 hn2 ht2
      rcases Nat.lt_succ_iff_lt_or_eq.mp hj with hlt | heq
      · have hne : k ≠ j := by omega
        simp only [List.getElem?_set_ne hne]
        exact hdone j hlt b2 cp2 n2 target2 hb2 hcp2 hn2 ht2
      · subst heq
        rw [hb] at hb2
        rw [hcp] at hcp2
        rw [hn] at hn2
        cases hb2
        cases hcp2
        cases hn2
        rw [ht] at ht2
        cases ht2
        simp only [nextPoint, nextReached, if_pos hh]
        rw [List.getElem?_set_self (by omega), List.getElem?_set_self (by omega),
          List.getElem?_set_self (by omega), hW, hM, hT]
        exact ⟨rfl, rfl, rfl⟩
  · rw [if_neg (fun h => hh (hhit.mp h))]
    refine ⟨hW, hM, hO, hT, hP, ?_, hlc, hln, ?_, ?_⟩
    · simpa using hlb
    · intro j hj
      have hne : k ≠ j := by omega
      obtain ⟨r1, r2, r3⟩ := hrest j (by omega)
      simp only [List.getElem?_set_ne hne]
      exact ⟨r1, r2, r3⟩
    · intro j hj b2 cp2 n2 target2 hb2 hcp2 hn2 ht2
      rcases Nat.lt_succ_iff_lt_or_eq.mp hj with hlt | heq
      · have hne : k ≠ j := by omega
        simp only [List.getElem?_set_ne hne]
        exact hdone j hlt b2 cp2 n2 target2 hb2 hcp2 hn2 ht2
      · subst heq
        rw [hb] at hb2
        rw [hcp] at hcp2
        rw [hn] at hn2
        cases hb2
        cases hcp2
        cases hn2
        rw [ht] at ht2
        cases ht2
        simp only [nextPoint, nextReached, if_neg hh]
        rw [List.getElem?_set_self (by omega), hW, hM]
        exact ⟨rfl, hcp1.trans hcp, hn1.trans hn⟩

theorem loop_inv (dt : K) (e0 : Env K) (hwf : e0.WellFormed) :
    ∀ k, k ≤ e0.Boats.length →
      ∃ e, (List.range k).foldlM (stepBoat dt) e0 = some e ∧ LoopInv dt e0 k e := by
  intro k
  induction k with
  | zero =>
    intro _
    refine ⟨e0, rfl, rfl, rfl, rfl, rfl, rfl, rfl, rfl, rfl, ?_, ?_⟩
    · intro j _
      exact ⟨rfl, rfl, rfl⟩
    · intro j hj
      omega
  | succ k ih =>
    intro hk
    obtain ⟨e, he, hinv⟩ := ih (by omega)
    obtain ⟨e2, he2, hinv2⟩ := stepBoat_inv dt e0 e k hwf (by omega) hinv
    refine ⟨e2, ?_, hinv2⟩
    rw [List.range_succ, List.foldlM_append, he]
    simp [he2]

theorem nextPoint_range (e : Env K) (b1 : Boat K) (cp : Int) (target : Vec K)
    (h0 : 0 ≤ cp) (h1 : cp < (e.Track.length : Int)) :
    0 ≤ nextPoint e b1 cp target ∧ nextPoint e b1 cp target < (e.Track.length : Int) := by
  unfold nextPoint
  split_ifs
  · exact ⟨Int.tmod_nonneg _ (by omega), Int.tmod_lt_of_pos _ (by omega)⟩
  · exact ⟨h0, h1⟩

/-- On a well-formed environment `Step` returns, and the environment it returns
is described entry by entry: the wind, the track and the hit distance are kept,
and the boat of each index is the moved boat with its updated counters. -/
theorem step_spec (e : Env K) (dt : K) (hwf : e.WellFormed) :
    ∃ e2 : Env K, e.Step dt = some e2 ∧
      e2.WindVec = e.WindVec ∧ e2.WindForceMultiplier = e.WindForceMultiplier ∧
      e2.Track = e.Track ∧ e2.PointHitDist = e.PointHitDist ∧
      e2.Boats.length = e.Boats.length ∧ e2.WellFormed ∧
      ∀ (j : Nat) (b : Boat K) (cp n : Int) (target : Vec K),
        e.Boats[j]? = some b → e.CurrentPoints[j]? = some cp →
        e.NumWaypointsReached[j]? = some n → sliceAt e.Track cp = some target →
        e2.Boats[j]? = some (moveBoat e.WindVec e.WindForceMultiplier dt b) ∧
        e2.CurrentPoints[j]? =
          some (nextPoint e (moveBoat e.WindVec e.WindForceMultiplier dt b) cp target) ∧
        e2.NumWaypointsReached[j]? =
          some (nextReached e (moveBoat e.WindVec e.WindForceMultiplier dt b) n target) := by
  have hwf0 : Env.WellFormed
      { e with OceanOffset := e.OceanOffset.Add (e.WindVec.Scaled dt) } := hwf
  obtain ⟨e2, he2, hinv⟩ := loop_inv dt _ hwf0 e.Boats.length (le_refl _)
  obtain ⟨hW, hM, hO, hT, hP, hlb, hlc, hln, hrest, hdone⟩ := hinv
  simp only at hW hM hT hP hlb hlc hln
  have hpt : ∀ (j : Nat) (b : Boat K) (cp n : Int) (target : Vec K),
      e.Boats[j]? = some b → e.CurrentPoints[j]? = some cp →
      e.NumWaypointsReached[j]? = some n → sliceAt e.Track cp = some target →
      e2.Boats[j]? = some (moveBoat e.WindVec e.WindForceMultiplier dt b) ∧
      e2.CurrentPoints[j]? =
        some (nextPoint e (moveBoat e.WindVec e.WindForceMultiplier dt b) cp target) ∧
      e2.NumWaypointsReached[j]? =
        some (nextReached e (moveBoat e.WindVec e.WindForceMultiplier dt b) n target) := by
    intro j b cp n target hb hcp hn ht
    have hj : j < e.Boats.length := (List.getElem?_eq_some_iff.mp hb).1
    exact hdone j hj b cp n target hb hcp hn ht
  refine ⟨e2, he2, hW, hM, hT, hP, hlb, ⟨?_, ?_, ?_⟩, hpt⟩
  · rw [hlc, hlb]; exact hwf.1
  · rw [hln, hlb]; exact hwf.2.1
  · intro c hc
    obtain ⟨j, hj, hjc⟩ := List.getElem_of_mem hc
    have hjb : j < e.Boats.length := by
      have := hwf.1
      omega
    obtain ⟨b, cp, n, target, hb, hcp, hn, ht⟩ := wellFormed_entries e hwf j hjb
    have h2 := (hpt j b cp n target hb hcp hn ht).2.1
    have h3 : e2.CurrentPoints[j]? = some c := by
      rw [List.getElem?_eq_getElem hj, hjc]
    have hc2 := Option.some.inj (h3.symm.trans h2)
    rw [hc2, hT]
    obtain ⟨r0, r1⟩ := sliceAt_some_range _ _ _ ht
    exact nextPoint_range e _ cp target r0 r1

end StepLemmas

/-! ## Waypoint progression, drag and control clamping -/

section Claims

variable {K : Type} [LinearOrderedField K] [GoMath K]

/-- C1. Waypoint progression in `Step`. On every environment on which `Step`
runs (non-empty track and in-range target indices, the counter slices as long as
the boat slice), for every boat `b` of index `bi` with target index `i` and
reached-count `n`: `Step` returns, the boat it leaves at `bi` is the moved boat
(pose integrated), and if the distance from the new position to `track[i]` is
at most `PointHitDist` the target index becomes `(i+1) mod len(track)`, which
lies in `[0, len(track))` and is `0` when `i` was the last index, and the
reached-count becomes `n + 1`; otherwise both are unchanged. -/
theorem C1_waypoint_progression (e : Env K) (dt : K) (hwf : e.WellFormed)
    (bi : Nat) (b : Boat K) (i n : Int) (target : Vec K)
    (hb : e.Boats[bi]? = some b) (hi : e.CurrentPoints[bi]? = some i)
    (hn : e.NumWaypointsReached[bi]? = some n) (ht : sliceAt e.Track i = some target) :
    ∃ e2 : Env K, e.Step dt = some e2 ∧ e2.Track = e.Track ∧
      e2.Boats[bi]? = some (moveBoat e.WindVec e.WindForceMultiplier dt b) ∧
      (((moveBoat e.WindVec e.WindForceMultiplier dt b).Pos.Sub target).Len ≤ e.PointHitDist →
        e2.CurrentPoints[bi]? = some ((i + 1) % (e.Track.length : Int)) ∧
        0 ≤ (i + 1) % (e.Track.length : Int) ∧
        (i + 1) % (e.Track.length : Int) < (e.Track.length : Int) ∧
        (i + 1 = (e.Track.length : Int) → (i + 1) % (e.Track.length : Int) = 0) ∧
        e2.NumWaypointsReached[bi]? = some (n + 1)) ∧
      (¬ ((moveBoat e.WindVec e.WindForceMultiplier dt b).Pos.Sub target).Len ≤ e.PointHitDist →
        e2.CurrentPoints[bi]? = some i ∧ e2.NumWaypointsReached[bi]? = some n) := by
  obtain ⟨e2, he2, _, _, hT, _, _, _, hpt⟩ := step_spec e dt hwf
  obtain ⟨h1, h2, h3⟩ := hpt bi b i n target hb hi hn ht
  obtain ⟨r0, r1⟩ := sliceAt_some_range _ _ _ ht
  have hmod : Int.tmod (i + 1) (e.Track.length : Int) = (i + 1) % (e.Track.length : Int) :=
    Int.tmod_eq_emod (by omega) (by omega)
  refine ⟨e2, he2, hT, h1, ?_, ?_⟩
  · intro hhit
    have hh : hitsWaypoint e (moveBoat e.WindVec e.WindForceMultiplier dt b) target := hhit
    simp only [nextPoint, nextReached, if_pos hh, hmod] at h2 h3
    refine ⟨h2, Int.emod_nonneg _ (by omega), Int.emod_lt_of_pos _ (by omega), ?_, h3⟩
    intro hlast
    rw [hlast]
    exact Int.emod_self
  · intro hmiss
    have hh : ¬ hitsWaypoint e (moveBoat e.WindVec e.WindForceMultiplier dt b) target := hmiss
    simp only [nextPoint, nextReached, if_neg hh] at h2 h3
    exact ⟨h2, h3⟩

/-- C2. Drag never reverses sign. For all `v`, `coeff` and `dt` the damped value
`v - adj` is zero or has the sign of `v`; and in `Step` the forward component
(damped with `DragForward` or `DragBack`), the lateral component (damped with
`DragPerp`) and the angular velocity (damped with `AngularDrag`) are each such
a damped value, so each is zero or keeps the sign it had before its damping. -/
theorem C2_drag_never_reverses_sign (windVec : Vec K) (windForceMultiplier dt : K)
    (b : Boat K) (v coeff : K) :
    ZeroOrSameSign v (v - dragAdj v coeff dt) ∧
    (paraDrag (afterWind windVec windForceMultiplier dt b)
        (velParaBefore (afterWind windVec windForceMultiplier dt b)) = b.DragForward ∨
      paraDrag (afterWind windVec windForceMultiplier dt b)
        (velParaBefore (afterWind windVec windForceMultiplier dt b)) = b.DragBack) ∧
    ZeroOrSameSign (velParaBefore (afterWind windVec windForceMultiplier dt b))
      (velParaAfter dt (afterWind windVec windForceMultiplier dt b)) ∧
    ZeroOrSameSign (velPerpBefore (afterWind windVec windForceMultiplier dt b))
      (velPerpAfter dt (afterWind windVec windForceMultiplier dt b)) ∧
    ZeroOrSameSign
      (rotVelRudder (velParaAfter dt (afterWind windVec windForceMultiplier dt b))
        (applyDrag dt (afterWind windVec windForceMultiplier dt b)))
      (moveBoat windVec windForceMultiplier dt b).RotVel := by
  refine ⟨dragAdj_sign v coeff dt, ?_, dragAdj_sign _ _ dt, dragAdj_sign _ _ dt, dragAdj_sign _ _ dt⟩
  unfold paraDrag
  split_ifs
  · left; rfl
  · right; rfl

/-- C3. Control clamping. For every boat with `MaxSailAngle >= 0` and
`MaxRudderAngle >= 0` and arbitrary control angles, `Step` returns and the boat
it leaves has the same two maxima, `-MaxSailAngle <= SailAngle <= MaxSailAngle`
and `-MaxRudderAngle <= RudderAngle <= MaxRudderAngle`, and an angle that was
already inside its range is unchanged. -/
theorem C3_control_clamping (e : Env K) (dt : K) (hwf : e.WellFormed)
    (bi : Nat) (b : Boat K) (hb : e.Boats[bi]? = some b)
    (hs : 0 ≤ b.MaxSailAngle) (hr : 0 ≤ b.MaxRudderAngle) :
    ∃ (e2 : Env K) (b2 : Boat K), e.Step dt = some e2 ∧ e2.Boats[bi]? = some b2 ∧
      b2.MaxSailAngle = b.MaxSailAngle ∧ b2.MaxRudderAngle = b.MaxRudderAngle ∧
      (-b.MaxSailAngle ≤ b2.SailAngle ∧ b2.SailAngle ≤ b.MaxSailAngle) ∧
      (-b.MaxRudderAngle ≤ b2.RudderAngle ∧ b2.RudderAngle ≤ b.MaxRudderAngle) ∧
      (-b.MaxSailAngle ≤ b.SailAngle → b.SailAngle ≤ b.MaxSailAngle →
        b2.SailAngle = b.SailAngle) ∧
      (-b.MaxRudderAngle ≤ b.RudderAngle → b.RudderAngle ≤ b.MaxRudderAngle →
        b2.RudderAngle = b.RudderAngle) := by
  obtain ⟨e2, he2, _, _, _, _, _, _, hpt⟩ := step_spec e dt hwf
  have hbi : bi < e.Boats.length := (List.getElem?_eq_some_iff.mp hb).1
  obtain ⟨b0, cp, n, target, hb0, hcp, hn, ht⟩ := wellFormed_entries e hwf bi hbi
  rw [hb] at hb0
  cases hb0
  obtain ⟨h1, _, _⟩ := hpt bi b cp n target hb hcp hn ht
  refine ⟨e2, _, he2, h1, rfl, rfl, ?_, ?_, ?_, ?_⟩
  · exact clamp_mem b.SailAngle (-b.MaxSailAngle) b.MaxSailAngle (by linarith)
  · exact clamp_mem b.RudderAngle (-b.MaxRudderAngle) b.MaxRudderAngle (by linarith)
  · intro h1 h2
    exact clamp_of_mem _ _ _ h1 h2
  · intro h1 h2
    exact clamp_of_mem _ _ _ h1 h2

end Claims

/-! ## Degenerate wind: zero relative wind, and the becalmed boat -/

section Becalmed

variable {K : Type} [LinearOrderedField K] [GoMath K]

theorem windSailForce_zero (windVec : Vec K) (b : Boat K) (h : windVec = b.Vel) :
    windSailForce windVec b = ⟨0, 0⟩ := by
  subst h
  simp [windSailForce, relativeWindVec, reflectVec, Vec.Sub, Vec.Scaled, Vec.Dot]

theorem afterWind_vel_of_eq (windVec : Vec K) (windForceMultiplier dt : K) (b : Boat K)
    (h : windVec = b.Vel) : (afterWind windVec windForceMultiplier dt b).Vel = b.Vel := by
  have hf := windSailForce_zero windVec (clampControls b) h
  simp only [afterWind, applyWind, hf]
  simp [Vec.Add, Vec.Scaled, clampControls]

theorem moveBoat_becalmed (windForceMultiplier dt : K) (b : Boat K)
    (hvel : b.Vel = ⟨0, 0⟩) :
    (moveBoat ⟨0, 0⟩ windForceMultiplier dt b).Vel = ⟨0, 0⟩ ∧
    (moveBoat ⟨0, 0⟩ windForceMultiplier dt b).Pos = b.Pos ∧
    velParaAfter dt (afterWind ⟨0, 0⟩ windForceMultiplier dt b) = 0 := by
  have hv := afterWind_vel_of_eq ⟨0, 0⟩ windForceMultiplier dt b hvel.symm
  rw [hvel] at hv
  have hpara : velParaAfter dt (afterWind ⟨0, 0⟩ windForceMultiplier dt b) = 0 := by
    simp [velParaAfter, velParaBefore, dragAdj, hv, Vec.Dot]
  have hperp : velPerpAfter dt (afterWind ⟨0, 0⟩ windForceMultiplier dt b) = 0 := by
    simp [velPerpAfter, velPerpBefore, dragAdj, hv, Vec.Dot]
  have hpos : (afterWind ⟨0, 0⟩ windForceMultiplier dt b).Pos = b.Pos := rfl
  refine ⟨?_, ?_, hpara⟩
  · simp [moveBoat, integratePose, rotateVel, applyRudder, applyDrag, hpara, hperp,
      Vec.Rotated, Vec.Add, Vec.Scaled]
  · simp only [moveBoat, integratePose, rotateVel, applyRudder, applyDrag, hpara, hperp, hpos]
    simp [Vec.Rotated, Vec.Add, Vec.Scaled]

/-- C5. Zero relative wind gives zero force. If the wind vector equals the
boat's velocity when `Step` starts, the relative wind is the zero vector;
normalising it takes the explicit zero-vector branch of `Unit` and yields
`(1, 0)` (no division by the zero length takes place); the wind change
`reflected - relativeWind` is the zero vector for every sail normal, so
`windSailForce` is the zero vector, and the velocity entering the drag stage
equals the velocity at the start of the `Step`. -/
theorem C5_zero_relative_wind (windVec : Vec K) (windForceMultiplier dt : K) (b : Boat K)
    (h : windVec = b.Vel) :
    relativeWindVec windVec (clampControls b) = ⟨0, 0⟩ ∧
    (relativeWindVec windVec (clampControls b)).Unit = ⟨1, 0⟩ ∧
    (∀ n : Vec K, (reflectVec (relativeWindVec windVec (clampControls b)) n).Sub
      (relativeWindVec windVec (clampControls b)) = ⟨0, 0⟩) ∧
    windSailForce windVec (clampControls b) = ⟨0, 0⟩ ∧
    (afterWind windVec windForceMultiplier dt b).Vel = b.Vel := by
  have hrel : relativeWindVec windVec (clampControls b) = ⟨0, 0⟩ := by
    subst h
    simp [relativeWindVec, Vec.Sub, clampControls]
  refine ⟨hrel, ?_, ?_, windSailForce_zero windVec (clampControls b) h,
    afterWind_vel_of_eq windVec windForceMultiplier dt b h⟩
  · rw [hrel]
    simp [Vec.Unit]
  · intro n
    rw [hrel]
    simp [reflectVec, Vec.Sub, Vec.Scaled, Vec.Dot]

/-- C7. A becalmed, stationary boat stays put. In an environment with zero wind
vector, for a boat with zero linear velocity and any `dt`, control angles and
hull parameters, `Step` returns and leaves the boat with linear velocity exactly
zero and its position unchanged; the rudder term adds nothing to the angular
velocity, which changes only by the angular-drag adjustment. -/
theorem C7_becalmed_boat_stays_put (e : Env K) (dt : K) (hwf : e.WellFormed)
    (bi : Nat) (b : Boat K) (hb : e.Boats[bi]? = some b)
    (hwind : e.WindVec = ⟨0, 0⟩) (hvel : b.Vel = ⟨0, 0⟩) :
    ∃ (e2 : Env K) (b2 : Boat K), e.Step dt = some e2 ∧ e2.Boats[bi]? = some b2 ∧
      b2.Vel = ⟨0, 0⟩ ∧ b2.Pos = b.Pos ∧
      rotVelRudder (velParaAfter dt (afterWind e.WindVec e.WindForceMultiplier dt b))
        (applyDrag dt (afterWind e.WindVec e.WindForceMultiplier dt b)) = b.RotVel ∧
      b2.RotVel = b.RotVel - dragAdj b.RotVel b.AngularDrag dt := by
  obtain ⟨e2, he2, _, _, _, _, _, _, hpt⟩ := step_spec e dt hwf
  have hbi : bi < e.Boats.length := (List.getElem?_eq_some_iff.mp hb).1
  obtain ⟨b0, cp, n, target, hb0, hcp, hn, ht⟩ := wellFormed_entries e hwf bi hbi
  rw [hb] at hb0
  cases hb0
  obtain ⟨h1, _, _⟩ := hpt bi b cp n target hb hcp hn ht
  rw [hwind] at h1 ⊢
  obtain ⟨m1, m2, m3⟩ := moveBoat_becalmed e.WindForceMultiplier dt b hvel
  have hr : rotVelRudder (velParaAfter dt (afterWind ⟨0, 0⟩ e.WindForceMultiplier dt b))
      (applyDrag dt (afterWind ⟨0, 0⟩ e.WindForceMultiplier dt b)) = b.RotVel := by
    rw [m3]
    simp [rotVelRudder, applyDrag, afterWind, applyWind, clampControls]
  refine ⟨e2, _, he2, h1, m1, m2, hr, ?_⟩
  simp only [moveBoat, integratePose, rotateVel, applyRudder, hr]
  simp [applyDrag, afterWind, applyWind, clampControls]

/-- C8, amended. A boat whose distance to its currently targeted waypoint
equals `PointHitDist` when `Step` is called has its target index advanced by
exactly 1 (circularly) and its reached-count incremented by exactly 1 whenever
its distance to that waypoint is still at most `PointHitDist` after the pose
integration of that `Step`, and both are left unchanged otherwise; a boat with
zero velocity in zero wind always is in the first case. -/
theorem C8_at_hit_distance (e : Env K) (dt : K) (hwf : e.WellFormed)
    (bi : Nat) (b : Boat K) (i n : Int) (target : Vec K)
    (hb : e.Boats[bi]? = some b) (hi : e.CurrentPoints[bi]? = some i)
    (hn : e.NumWaypointsReached[bi]? = some n) (ht : sliceAt e.Track i = some target)
    (hdist : (b.Pos.Sub target).Len = e.PointHitDist) :
    ∃ e2 : Env K, e.Step dt = some e2 ∧
      (((moveBoat e.WindVec e.WindForceMultiplier dt b).Pos.Sub target).Len ≤ e.PointHitDist →
        e2.CurrentPoints[bi]? = some ((i + 1) % (e.Track.length : Int)) ∧
        e2.NumWaypointsReached[bi]? = some (n + 1)) ∧
      (¬ ((moveBoat e.WindVec e.WindForceMultiplier dt b).Pos.Sub target).Len ≤ e.PointHitDist →
        e2.CurrentPoints[bi]? = some i ∧ e2.NumWaypointsReached[bi]? = some n) ∧
      (e.WindVec = ⟨0, 0⟩ → b.Vel = ⟨0, 0⟩ →
        e2.CurrentPoints[bi]? = some ((i + 1) % (e.Track.length : Int)) ∧
        e2.NumWaypointsReached[bi]? = some (n + 1)) := by
  obtain ⟨e2, he2, _, _, _, _, _, _, hpt⟩ := step_spec e dt hwf
  obtain ⟨_, h2, h3⟩ := hpt bi b i n target hb hi hn ht
  obtain ⟨r0, r1⟩ := sliceAt_some_range _ _ _ ht
  have hmod : Int.tmod (i + 1) (e.Track.length : Int) = (i + 1) % (e.Track.length : Int) :=
    Int.tmod_eq_emod (by omega) (by omega)
  have hadv : ((moveBoat e.WindVec e.WindForceMultiplier dt b).Pos.Sub target).Len
      ≤ e.PointHitDist →
      e2.CurrentPoints[bi]? = some ((i + 1) % (e.Track.length : Int)) ∧
      e2.NumWaypointsReached[bi]? = some (n + 1) := by
    intro hhit
    have hh : hitsWaypoint e (moveBoat e.WindVec e.WindForceMultiplier dt b) target := hhit
    simp only [nextPoint, nextReached, if_pos hh, hmod] at h2 h3
    exact ⟨h2, h3⟩
  refine ⟨e2, he2, hadv, ?_, ?_⟩
  · intro hmiss
    have hh : ¬ hitsWaypoint e (moveBoat e.WindVec e.WindForceMultiplier dt b) target := hmiss
    simp only [nextPoint, nextReached, if_neg hh] at h2 h3
    exact ⟨h2, h3⟩
  · intro hwind hvel
    apply hadv
    rw [hwind, (moveBoat_becalmed e.WindForceMultiplier dt b hvel).2.1, hdist]

end Becalmed

/-! ## The real-number reading of the `math` functions -/

section RealMath

@[simp] theorem goSin_real (x : ℝ) : GoMath.Sin x = Real.sin x := rfl

@[simp] theorem goCos_real (x : ℝ) : GoMath.Cos x = Real.cos x := rfl

@[simp] theorem goSqrt_real (x : ℝ) : GoMath.Sqrt x = Real.sqrt x := rfl

@[simp] theorem goTanh_real (x : ℝ) : GoMath.Tanh x = Real.tanh x := rfl

@[simp] theorem goPi_real : (GoMath.Pi : ℝ) = Real.pi := rfl

theorem len_nonneg (u : Vec ℝ) : 0 ≤ u.Len := Real.sqrt_nonneg _

theorem len_of_y_zero (x : ℝ) (hx : 0 ≤ x) : (⟨x, 0⟩ : Vec ℝ).Len = x := by
  simp only [Vec.Len, goSqrt_real, mul_zero, add_zero]
  exact Real.sqrt_mul_self hx

theorem clampControls_lineBoat (p : Vec ℝ) (v : ℝ) :
    clampControls (lineBoat p v) = lineBoat p v := by
  have hpi := Real.pi_pos
  have h1 : clamp (0 : ℝ) (-(Real.pi / 2)) (Real.pi / 2) = 0 :=
    clamp_of_mem _ _ _ (by linarith) (by linarith)
  simp [clampControls, lineBoat, NewDefaultBoat, h1]

theorem unit_lineBoat (p : Vec ℝ) (v : ℝ) (hv : v < 2) :
    (relativeWindVec (Vec.V 2 0) (lineBoat p v)).Unit = ⟨1, 0⟩ := by
  have hne : (2 : ℝ) - v ≠ 0 := by linarith
  have hlen : (⟨2 - v, 0⟩ : Vec ℝ).Len = 2 - v := len_of_y_zero _ (by linarith)
  simp only [relativeWindVec, lineBoat, Vec.V, Vec.Sub, sub_zero, Vec.Unit, hne,
    false_and, if_false, hlen, Vec.Scaled]
  ext
  · simp only
    field_simp
  · simp

theorem sailNormal_lineBoat (p : Vec ℝ) (v : ℝ) (hv : v < 2) :
    sailNormal (Vec.V 2 0) (lineBoat p v) = ⟨-1, 0⟩ := by
  have hu := unit_lineBoat p v hv
  simp only [sailNormal, hu]
  simp [lineBoat, NewDefaultBoat, Vec.V, Vec.Rotated, Vec.Dot, Vec.Scaled]

theorem windSailForce_lineBoat (p : Vec ℝ) (v : ℝ) (hv : v < 2) :
    windSailForce (Vec.V 2 0) (lineBoat p v) = ⟨2 * (2 - v), 0⟩ := by
  have hu := unit_lineBoat p v hv
  have hn := sailNormal_lineBoat p v hv
  simp only [windSailForce, hu, hn]
  simp only [relativeWindVec, lineBoat, NewDefaultBoat, Vec.V, Vec.Sub, reflectVec,
    Vec.Dot, Vec.Scaled]
  ext
  · simp only
    ring
  · simp

theorem afterWind_lineBoat (p : Vec ℝ) (v : ℝ) (hv : v < 2) :
    afterWind (Vec.V 2 0) 1 (1 / 60) (lineBoat p v) =
      lineBoat p (v + 2 * (2 - v) * (1 / 60)) := by
  simp only [afterWind, clampControls_lineBoat, applyWind, windSailForce_lineBoat p v hv]
  simp [lineBoat, Vec.Add, Vec.Scaled]

theorem dragAdj_small (x c dt : ℝ) (h0 : 0 ≤ c * dt) (h1 : c * dt ≤ 1) :
    dragAdj x c dt = x * c * dt := by
  unfold dragAdj
  simp only
  rw [if_neg]
  rw [not_lt, mul_assoc, abs_mul, abs_of_nonneg h0]
  calc |x| * (c * dt) ≤ |x| * 1 := mul_le_mul_of_nonneg_left h1 (abs_nonneg x)
    _ = |x| := mul_one _

theorem velAfter_lineBoat (p : Vec ℝ) (x : ℝ) :
    velParaAfter (1 / 60) (lineBoat p x) = 0 ∧
    velPerpAfter (1 / 60) (lineBoat p x) = x * (1 - 4 * (1 / 60)) := by
  have hpara : velParaBefore (lineBoat p x) = 0 := by
    simp [velParaBefore, paraVec, lineBoat, NewDefaultBoat, Vec.V, Vec.Rotated, Vec.Dot]
  have hperp : velPerpBefore (lineBoat p x) = x := by
    simp [velPerpBefore, perpVec, lineBoat, NewDefaultBoat, Vec.V, Vec.Rotated, Vec.Dot]
  constructor
  · simp [velParaAfter, hpara, dragAdj]
  · have hd : (lineBoat p x).DragPerp = 4 := rfl
    rw [velPerpAfter, hperp, hd, dragAdj_small x 4 (1 / 60) (by norm_num) (by norm_num)]
    ring

theorem moveBoat_lineBoat (p : Vec ℝ) (v : ℝ) (hv : v < 2) :
    moveBoat (Vec.V 2 0) 1 (1 / 60) (lineBoat p v) =
      lineBoat (p.Add ⟨lineVel v * (1 / 60), 0⟩) (lineVel v) := by
  obtain ⟨hpara, hperp⟩ := velAfter_lineBoat p (v + 2 * (2 - v) * (1 / 60))
  simp only [moveBoat, afterWind_lineBoat p v hv, applyDrag, hpara, hperp]
  simp [integratePose, rotateVel, applyRudder, rotVelRudder, dragAdj, paraVec, perpVec,
    lineBoat, NewDefaultBoat, lineVel, Vec.V, Vec.Rotated, Vec.Add, Vec.Scaled]

theorem lineVel_bounds (v : ℝ) (h0 : 0 ≤ v) (h2 : v < 2) :
    0 < lineVel v ∧ lineVel v < 2 := by
  unfold lineVel
  constructor
  · nlinarith
  · nlinarith

theorem basicEnv_wellFormed {K : Type} [LinearOrderedField K]
    (track : List (Vec K)) (boats : List (Boat K))
    (htrack : track ≠ []) : (BasicEnv track boats).WellFormed := by
  refine ⟨by simp [BasicEnv], by simp [BasicEnv], ?_⟩
  intro cp hcp
  have h0 : cp = 0 := (List.mem_replicate.mp hcp).2
  have hlen : 0 < track.length := List.length_pos.mpr htrack
  subst h0
  simp only [BasicEnv]
  omega

/-- The state of a default boat sailing in the wind `(2, 0)` after `n` calls of
`Step(1/60)`: it is still a `lineBoat`, with x-velocity in `[0, 2)`, positive
once a step was taken. -/
theorem stepN_lineBoat (n : Nat) :
    ∀ (e : Env ℝ) (bi : Nat) (p : Vec ℝ) (v : ℝ), e.WellFormed →
      e.WindVec = Vec.V 2 0 → e.WindForceMultiplier = 1 →
      e.Boats[bi]? = some (lineBoat p v) → 0 ≤ v → v < 2 →
      ∃ (e2 : Env ℝ) (p2 : Vec ℝ) (v2 : ℝ), Env.StepN (1 / 60) n e = some e2 ∧
        e2.Boats[bi]? = some (lineBoat p2 v2) ∧ 0 ≤ v2 ∧ v2 < 2 ∧
        (0 < n ∨ 0 < v → 0 < v2) := by
  induction n with
  | zero =>
    intro e bi p v _ _ _ hb h0 h2
    refine ⟨e, p, v, rfl, hb, h0, h2, ?_⟩
    intro h
    rcases h with h | h
    · omega
    · exact h
  | succ n ih =>
    intro e bi p v hwf hW hM hb h0 h2
    obtain ⟨e1, he1, hW1, hM1, _, _, _, hwf1, hpt⟩ := step_spec e (1 / 60) hwf
    have hbi : bi < e.Boats.length := (List.getElem?_eq_some_iff.mp hb).1
    obtain ⟨b0, cp, k, target, hb0, hcp, hk, ht⟩ := wellFormed_entries e hwf bi hbi
    obtain ⟨hb1, _, _⟩ := hpt bi _ cp k target hb hcp hk ht
    rw [hW, hM, moveBoat_lineBoat p v h2] at hb1
    obtain ⟨l0, l2⟩ := lineVel_bounds v h0 h2
    obtain ⟨e2, p2, v2, he2, hb2, r0, r2, rpos⟩ :=
      ih e1 bi _ (lineVel v) hwf1 (hW1.trans hW) (hM1.trans hM) hb1 (le_of_lt l0) l2
    refine ⟨e2, p2, v2, ?_, hb2, r0, r2, fun _ => rpos (Or.inr l0)⟩
    simp only [Env.StepN, he1, Option.some_bind]
    exact he2

/-- C9. End-to-end wind scenario. A boat built by `NewDefaultBoat`, at any index
of an environment built by `BasicEnv` (wind `(2, 0)`, `WindForceMultiplier` 1)
on any non-empty track, with its sail and rudder angles left at 0: 60
consecutive calls of `Step(1/60)` all return, and afterwards the boat's
velocity has a positive x-component (the direction of the sail force, which is
along `+x` throughout) and a zero y-component, and its heading and angular
velocity are zero. -/
theorem C9_wind_scenario (track : List (Vec ℝ)) (boats : List (Boat ℝ)) (bi : Nat)
    (htrack : track ≠ []) (hb : boats[bi]? = some NewDefaultBoat) :
    ∃ (e2 : Env ℝ) (b2 : Boat ℝ),
      Env.StepN (1 / 60) 60 (BasicEnv track boats) = some e2 ∧
      e2.Boats[bi]? = some b2 ∧
      0 < b2.Vel.X ∧ b2.Vel.Y = 0 ∧ b2.Rot = 0 ∧ b2.RotVel = 0 ∧
      0 < (windSailForce (Vec.V 2 0) b2).X ∧ (windSailForce (Vec.V 2 0) b2).Y = 0 ∧
      0 < b2.Vel.Dot (windSailForce (Vec.V 2 0) b2) := by
  have hb0 : (BasicEnv track boats).Boats[bi]? = some (lineBoat ⟨0, 0⟩ 0) := hb
  obtain ⟨e2, p2, v2, he2, hb2, r0, r2, rpos⟩ :=
    stepN_lineBoat 60 (BasicEnv track boats) bi ⟨0, 0⟩ 0
      (basicEnv_wellFormed track boats htrack) rfl rfl hb0 (le_refl 0) (by norm_num)
  have hpos : 0 < v2 := rpos (Or.inl (by norm_num))
  refine ⟨e2, lineBoat p2 v2, he2, hb2, hpos, rfl, rfl, rfl, ?_, ?_, ?_⟩
  · rw [windSailForce_lineBoat p2 v2 r2]
    simp only
    linarith
  · rw [windSailForce_lineBoat p2 v2 r2]
  · rw [windSailForce_lineBoat p2 v2 r2]
    simp only [Vec.Dot, lineBoat, mul_zero, add_zero]
    exact mul_pos hpos (by linarith)

theorem C9_wind_scenario_witness :
    ∃ (e2 : Env ℝ) (b2 : Boat ℝ),
      Env.StepN (1 / 60) 60 (BasicEnv [Vec.V 3 4] [NewDefaultBoat]) = some e2 ∧
      e2.Boats[0]? = some b2 ∧
      0 < b2.Vel.X ∧ b2.Vel.Y = 0 ∧ b2.Rot = 0 ∧ b2.RotVel = 0 ∧
      0 < (windSailForce (Vec.V 2 0) b2).X ∧ (windSailForce (Vec.V 2 0) b2).Y = 0 ∧
      0 < b2.Vel.Dot (windSailForce (Vec.V 2 0) b2) :=
  C9_wind_scenario [Vec.V 3 4] [NewDefaultBoat] 0 (by simp) (by simp)

/-- C8, as stated, fails. A default boat at the origin with zero velocity in
the environment of `BasicEnv`, targeting the waypoint `(-1, 0)` of a two-point
track: its distance to the target equals `PointHitDist = 1` when `Step(1/60)`
is called, the wind pushes it to `x > 0` during the step, and the step leaves
the target index at 0 and the reached-count at 0. -/
theorem C8_counterexample :
    ∃ e2 : Env ℝ,
      ((NewDefaultBoat : Boat ℝ).Pos.Sub (Vec.V (-1) 0)).Len =
        (BasicEnv [Vec.V (-1) 0, Vec.V 5 5] [NewDefaultBoat] : Env ℝ).PointHitDist ∧
      (NewDefaultBoat : Boat ℝ).Vel = ⟨0, 0⟩ ∧
      (BasicEnv [Vec.V (-1) 0, Vec.V 5 5] [NewDefaultBoat] : Env ℝ).CurrentPoints[0]? = some 0 ∧
      (BasicEnv [Vec.V (-1) 0, Vec.V 5 5] [NewDefaultBoat] : Env ℝ).NumWaypointsReached[0]?
        = some 0 ∧
      (BasicEnv [Vec.V (-1) 0, Vec.V 5 5] [NewDefaultBoat] : Env ℝ).Step (1 / 60) = some e2 ∧
      e2.CurrentPoints[0]? = some 0 ∧ e2.NumWaypointsReached[0]? = some 0 := by
  obtain ⟨e2, he2, _, _, _, _, _, _, hpt⟩ :=
    step_spec (BasicEnv [Vec.V (-1) 0, Vec.V 5 5] [NewDefaultBoat] : Env ℝ) (1 / 60)
      (basicEnv_wellFormed _ _ (by simp))
  obtain ⟨_, h2, h3⟩ := hpt 0 (lineBoat ⟨0, 0⟩ 0) 0 0 (Vec.V (-1) 0) rfl rfl rfl rfl
  have hmove : moveBoat (BasicEnv [Vec.V (-1) 0, Vec.V 5 5] [NewDefaultBoat] : Env ℝ).WindVec
      (BasicEnv [Vec.V (-1) 0, Vec.V 5 5] [NewDefaultBoat] : Env ℝ).WindForceMultiplier
      (1 / 60) (lineBoat ⟨0, 0⟩ 0) =
      lineBoat ((⟨0, 0⟩ : Vec ℝ).Add ⟨lineVel 0 * (1 / 60), 0⟩) (lineVel 0) :=
    moveBoat_lineBoat ⟨0, 0⟩ 0 (by norm_num)
  have hl : (0 : ℝ) < lineVel 0 := (lineVel_bounds 0 (le_refl 0) (by norm_num)).1
  have hsub : (lineBoat ((⟨0, 0⟩ : Vec ℝ).Add ⟨lineVel 0 * (1 / 60), 0⟩) (lineVel 0)).Pos.Sub
      (Vec.V (-1) 0) = ⟨lineVel 0 * (1 / 60) + 1, 0⟩ := by
    simp [lineBoat, Vec.Add, Vec.Sub, Vec.V]
  have hmiss : ¬ hitsWaypoint (BasicEnv [Vec.V (-1) 0, Vec.V 5 5] [NewDefaultBoat] : Env ℝ)
      (lineBoat ((⟨0, 0⟩ : Vec ℝ).Add ⟨lineVel 0 * (1 / 60), 0⟩) (lineVel 0))
      (Vec.V (-1) 0) := by
    unfold hitsWaypoint
    rw [hsub, len_of_y_zero _ (by linarith)]
    simp only [BasicEnv, not_le]
    linarith
  rw [hmove] at h2 h3
  simp only [nextPoint, nextReached, if_neg hmiss] at h2 h3
  refine ⟨e2, ?_, rfl, rfl, rfl, he2, h2, h3⟩
  have h1 : (NewDefaultBoat : Boat ℝ).Pos.Sub (Vec.V (-1) 0) = ⟨1, 0⟩ := by
    simp [NewDefaultBoat, Vec.Sub, Vec.V]
  rw [h1, len_of_y_zero 1 (by norm_num)]
  rfl

end RealMath

/-! ## Fitness and observations -/

section Observe

theorem mapM_option_spec {α β : Type} (f : α → Option β) :
    ∀ l : List α, (∀ x ∈ l, ∃ y, f x = some y) →
      ∃ ys : List β, l.mapM f = some ys ∧ ys.length = l.length ∧
        ∀ (i : Nat) (x : α), l[i]? = some x → ∃ y, ys[i]? = some y ∧ f x = some y := by
  intro l
  induction l with
  | nil =>
    intro _
    exact ⟨[], rfl, rfl, by simp⟩
  | cons a l ih =>
    intro h
    obtain ⟨y, hy⟩ := h a (List.mem_cons_self a l)
    obtain ⟨ys, hys, hlen, hpt⟩ := ih (fun x hx => h x (List.mem_cons_of_mem a hx))
    refine ⟨y :: ys, ?_, by simp [hlen], ?_⟩
    · rw [List.mapM_cons, hy, hys]
      rfl
    · intro i x hx
      cases i with
      | zero =>
        simp only [List.getElem?_cons_zero, Option.some.injEq] at hx
        subst hx
        exact ⟨y, by simp, hy⟩
      | succ i =>
        simp only [List.getElem?_cons_succ] at hx ⊢
        exact hpt i x hx

theorem mapM_range_spec {β : Type} (n : Nat) (f : Nat → Option β)
    (h : ∀ i, i < n → ∃ y, f i = some y) :
    ∃ ys : List β, (List.range n).mapM f = some ys ∧ ys.length = n ∧
      ∀ i, i < n → ∃ y, ys[i]? = some y ∧ f i = some y := by
  obtain ⟨ys, hys, hlen, hpt⟩ := mapM_option_spec f (List.range n)
    (fun x hx => h x (List.mem_range.mp hx))
  refine ⟨ys, hys, by simpa using hlen, ?_⟩
  intro i hi
  exact hpt i i (List.getElem?_range hi)

theorem tanh_bounds (x : ℝ) : -1 < Real.tanh x ∧ Real.tanh x < 1 := by
  have hc := Real.cosh_pos x
  have h1 : Real.sinh x < Real.cosh x := Real.sinh_lt_cosh x
  have h2 : 0 < Real.cosh x + Real.sinh x := by
    rw [Real.cosh_add_sinh]
    exact Real.exp_pos x
  rw [Real.tanh_eq_sinh_div_cosh]
  constructor
  · rw [lt_div_iff₀ hc]
    linarith
  · rw [div_lt_one hc]
    exact h1

theorem rolloff_bounds (x r : ℝ) :
    -1 ≤ TransCenteredRolloff x r ∧ TransCenteredRolloff x r ≤ 1 := by
  obtain ⟨h1, h2⟩ := tanh_bounds (x / r)
  exact ⟨le_of_lt h1, le_of_lt h2⟩

theorem ratio_bounds (a m : ℝ) (hm : 0 < m) (h1 : -m ≤ a) (h2 : a ≤ m) :
    -1 ≤ a / m ∧ a / m ≤ 1 := by
  constructor
  · rw [le_div_iff₀ hm]
    linarith
  · rw [div_le_one hm]
    exact h2

theorem fitnessAt_eq (e : Env ℝ) (i : Nat) (b : Boat ℝ) (cp n : Int) (target : Vec ℝ)
    (hcp : e.CurrentPoints[i]? = some cp) (hn : e.NumWaypointsReached[i]? = some n)
    (ht : sliceAt e.Track cp = some target) :
    fitnessAt e i b = some (fitnessValue (b.Pos.Sub target).Len n) := by
  simp [fitnessAt, hcp, hn, ht]

theorem inputsAt_eq (e : Env ℝ) (i : Nat) (b : Boat ℝ) (cp : Int) (target : Vec ℝ)
    (hcp : e.CurrentPoints[i]? = some cp) (ht : sliceAt e.Track cp = some target) :
    inputsAt e i b = some (inputsOf e.WindVec target b) := by
  simp [inputsAt, hcp, ht]

/-- C4. Fitness shape. The value `1/(d+1) + n` that `GetFitnesses` stores is
non-decreasing in the reached-count `n` for a fixed distance `d >= 0`, strictly
decreasing in `d` for a fixed `n`, and its proximity term `1/(d+1)` lies in
`(0, 1]`; and on every environment on which it runs `GetFitnesses` returns one
such value per boat, in boat order, taken at the boat's distance to its target
waypoint (a non-negative number) and at its reached-count. -/
theorem C4_fitness_shape (e : Env ℝ) (hwf : e.WellFormed) (d d2 : ℝ) (n m : Int)
    (hd : 0 ≤ d) (hdd : d < d2) (hnm : n ≤ m) :
    fitnessValue d n ≤ fitnessValue d m ∧
    fitnessValue d2 n < fitnessValue d n ∧
    (0 < fitnessValue d n - (n : ℝ) ∧ fitnessValue d n - (n : ℝ) ≤ 1) ∧
    ∃ fs : List ℝ, e.GetFitnesses = some fs ∧ fs.length = e.Boats.length ∧
      ∀ (i : Nat) (b : Boat ℝ) (cp k : Int) (target : Vec ℝ),
        e.Boats[i]? = some b → e.CurrentPoints[i]? = some cp →
        e.NumWaypointsReached[i]? = some k → sliceAt e.Track cp = some target →
        0 ≤ (b.Pos.Sub target).Len ∧
        fs[i]? = some (fitnessValue (b.Pos.Sub target).Len k) := by
  have hd1 : 0 < d + 1 := by linarith
  have hd2 : 0 < d2 + 1 := by linarith
  refine ⟨?_, ?_, ?_, ?_⟩
  · unfold fitnessValue
    have : (n : ℝ) ≤ (m : ℝ) := by exact_mod_cast hnm
    linarith
  · unfold fitnessValue
    have : 1 / (d2 + 1) < 1 / (d + 1) := one_div_lt_one_div_of_lt hd1 (by linarith)
    linarith
  · unfold fitnessValue
    have h0 : 0 < 1 / (d + 1) := one_div_pos.mpr hd1
    have h1 : 1 / (d + 1) ≤ 1 := by
      rw [div_le_one hd1]
      linarith
    constructor
    · linarith
    · linarith
  · have htot : ∀ i, i < e.Boats.length →
        ∃ y, (do let b ← e.Boats[i]?; fitnessAt e i b) = some y := by
      intro i hi
      obtain ⟨b, cp, k, target, hb, hcp, hk, ht⟩ := wellFormed_entries e hwf i hi
      exact ⟨fitnessValue (b.Pos.Sub target).Len k,
        by simp [hb, fitnessAt_eq e i b cp k target hcp hk ht]⟩
    obtain ⟨fs, hfs, hlen, hpt⟩ := mapM_range_spec e.Boats.length _ htot
    refine ⟨fs, hfs, hlen, ?_⟩
    intro i b cp k target hb hcp hk ht
    have hi : i < e.Boats.length := (List.getElem?_eq_some_iff.mp hb).1
    obtain ⟨y, hy1, hy2⟩ := hpt i hi
    simp only [hb, Option.bind_eq_bind, Option.some_bind,
      fitnessAt_eq e i b cp k target hcp hk ht, Option.some.injEq] at hy2
    rw [hy2]
    exact ⟨len_nonneg _, hy1⟩

/-- C6. Observation shape and range. On every environment on which it runs
(non-empty track, in-range target indices) and whose boats have positive
`MaxSailAngle` and `MaxRudderAngle` and control angles within `[-max, +max]`,
`GetInputs` returns exactly one vector per boat, in boat order; the vector of a
boat is the nine entries computed from that boat, and each entry lies in
`[-1, 1]`. -/
theorem C6_observation_shape (e : Env ℝ) (hwf : e.WellFormed)
    (hctl : ∀ b ∈ e.Boats, 0 < b.MaxSailAngle ∧ 0 < b.MaxRudderAngle ∧
      (-b.MaxSailAngle ≤ b.SailAngle ∧ b.SailAngle ≤ b.MaxSailAngle) ∧
      (-b.MaxRudderAngle ≤ b.RudderAngle ∧ b.RudderAngle ≤ b.MaxRudderAngle)) :
    ∃ ins : List (List ℝ), e.GetInputs = some ins ∧ ins.length = e.Boats.length ∧
      (∀ i, i < e.Boats.length → ∃ v, ins[i]? = some v ∧ v.length = 9 ∧
        ∀ x ∈ v, -1 ≤ x ∧ x ≤ 1) ∧
      ∀ (i : Nat) (b : Boat ℝ) (cp : Int) (target : Vec ℝ),
        e.Boats[i]? = some b → e.CurrentPoints[i]? = some cp →
        sliceAt e.Track cp = some target →
        ins[i]? = some (inputsOf e.WindVec target b) := by
  have htot : ∀ i, i < e.Boats.length →
      ∃ y, (do let b ← e.Boats[i]?; inputsAt e i b) = some y := by
    intro i hi
    obtain ⟨b, cp, k, target, hb, hcp, hk, ht⟩ := wellFormed_entries e hwf i hi
    exact ⟨inputsOf e.WindVec target b, by simp [hb, inputsAt_eq e i b cp target hcp ht]⟩
  obtain ⟨ins, hins, hlen, hpt⟩ := mapM_range_spec e.Boats.length _ htot
  have hval : ∀ (i : Nat) (b : Boat ℝ) (cp : Int) (target : Vec ℝ),
      e.Boats[i]? = some b → e.CurrentPoints[i]? = some cp →
      sliceAt e.Track cp = some target →
      ins[i]? = some (inputsOf e.WindVec target b) := by
    intro i b cp target hb hcp ht
    have hi : i < e.Boats.length := (List.getElem?_eq_some_iff.mp hb).1
    obtain ⟨y, hy1, hy2⟩ := hpt i hi
    simp only [hb, Option.bind_eq_bind, Option.some_bind,
      inputsAt_eq e i b cp target hcp ht, Option.some.injEq] at hy2
    rw [hy2]
    exact hy1
  refine ⟨ins, hins, hlen, ?_, hval⟩
  intro i hi
  obtain ⟨b, cp, k, target, hb, hcp, hk, ht⟩ := wellFormed_entries e hwf i hi
  have hmem : b ∈ e.Boats := List.getElem?_mem hb
  obtain ⟨hs, hr, ⟨hs1, hs2⟩, ⟨hr1, hr2⟩⟩ := hctl b hmem
  refine ⟨_, hval i b cp target hb hcp ht, rfl, ?_⟩
  intro x hx
  simp only [inputsOf, List.mem_cons, List.mem_singleton, List.not_mem_nil, or_false] at hx
  rcases hx with h | h | h | h | h | h | h | h | h
  · rw [h]; exact ratio_bounds _ _ hs hs1 hs2
  · rw [h]; exact ratio_bounds _ _ hr hr1 hr2
  all_goals rw [h]; exact rolloff_bounds _ _

end Observe

/-! ## Track generation -/

section Track

theorem newTrackFrom_length {K : Type} [LinearOrderedField K] [GoMath K]
    (draws : Nat → K) (distance : K) :
    ∀ n next, (newTrackFrom draws distance n next).length = n := by
  intro n
  induction n with
  | zero => intro next; rfl
  | succ n ih => intro next; simp [newTrackFrom, ih]

theorem newTrackFrom_getElem? {K : Type} [LinearOrderedField K] [GoMath K]
    (draws : Nat → K) (distance : K) :
    ∀ n next i, i < n → (newTrackFrom draws distance n next)[i]? =
      some (trackPoint distance (draws (next + 2 * i)) (draws (next + 2 * i + 1))) := by
  intro n
  induction n with
  | zero => intro next i hi; omega
  | succ n ih =>
    intro next i hi
    cases i with
    | zero => simp [newTrackFrom]
    | succ i =>
      simp only [newTrackFrom, List.getElem?_cons_succ]
      rw [ih (next + 2) i (by omega)]
      have h1 : next + 2 + 2 * i = next + 2 * (i + 1) := by ring
      rw [h1]

theorem newTrackFrom_congr {K : Type} [LinearOrderedField K] [GoMath K]
    (draws draws2 : Nat → K) (distance : K) :
    ∀ n next, (∀ k, next ≤ k → k < next + 2 * n → draws2 k = draws k) →
      newTrackFrom draws2 distance n next = newTrackFrom draws distance n next := by
  intro n
  induction n with
  | zero => intro next _; rfl
  | succ n ih =>
    intro next h
    simp only [newTrackFrom]
    rw [h next (le_refl _) (by omega), h (next + 1) (by omega) (by omega),
      ih (next + 2) (fun k hk1 hk2 => h k (by omega) (by omega))]

theorem trackPoint_len (distance u w : ℝ) (hd : 0 ≤ distance) :
    (trackPoint distance u w).Len = Real.sqrt u * distance := by
  have hr : 0 ≤ Real.sqrt u * distance := mul_nonneg (Real.sqrt_nonneg u) hd
  have hsq : ∀ (r t : ℝ), (0 * Real.cos t - r * Real.sin t) * (0 * Real.cos t - r * Real.sin t) +
      (0 * Real.sin t + r * Real.cos t) * (0 * Real.sin t + r * Real.cos t) = r * r := by
    intro r t
    have := Real.sin_sq_add_cos_sq t
    nlinarith
  simp only [trackPoint, Vec.V, Vec.Rotated, Vec.Len, goSqrt_real, goSin_real, goCos_real,
    goPi_real, hsq]
  exact Real.sqrt_mul_self hr

/-- C10. Track generation stays in the disk. For every `distance >= 0`, every
`count` and every sequence of draws in `[0, 1)`, `NewTrack(distance, count)`
returns exactly `count` points; the point of index `i` lies at distance
`sqrt(u) * distance` from the origin, `u` being its first draw (the draw number
`2*i`), hence within radius `distance`; and two sequences of draws that agree
on the `2*count` draws taken yield the same track. -/
theorem C10_track_in_disk (draws : Nat → ℝ) (distance : ℝ) (count : Nat)
    (hd : 0 ≤ distance) (hdraws : ∀ k, 0 ≤ draws k ∧ draws k < 1) :
    (NewTrack draws distance count).length = count ∧
    (∀ i, i < count → ∃ pt : Vec ℝ, (NewTrack draws distance count)[i]? = some pt ∧
      pt.Len = Real.sqrt (draws (2 * i)) * distance ∧ pt.Len ≤ distance) ∧
    (∀ draws2 : Nat → ℝ, (∀ k, k < 2 * count → draws2 k = draws k) →
      NewTrack draws2 distance count = NewTrack draws distance count) := by
  refine ⟨newTrackFrom_length draws distance count 0, ?_, ?_⟩
  · intro i hi
    have hget := newTrackFrom_getElem? draws distance count 0 i hi
    rw [Nat.zero_add] at hget
    refine ⟨_, hget, trackPoint_len _ _ _ hd, ?_⟩
    rw [trackPoint_len _ _ _ hd]
    have h1 : Real.sqrt (draws (2 * i)) ≤ 1 := by
      rw [Real.sqrt_le_left (by norm_num)]
      have := (hdraws (2 * i)).2
      linarith
    calc Real.sqrt (draws (2 * i)) * distance ≤ 1 * distance :=
          mul_le_mul_of_nonneg_right h1 hd
      _ = distance := one_mul _
  · intro draws2 h
    exact newTrackFrom_congr draws draws2 distance count 0
      (fun k _ hk => h k (by omega))

end Track

/-! ## The theorems at concrete inputs -/

section Witnesses

theorem default_first_step_pos :
    (moveBoat (Vec.V 2 0) 1 (1 / 60) (NewDefaultBoat : Boat ℝ)).Pos =
      ⟨lineVel 0 * (1 / 60), 0⟩ := by
  have h := moveBoat_lineBoat ⟨0, 0⟩ 0 (by norm_num)
  have h2 : moveBoat (Vec.V 2 0) 1 (1 / 60) (NewDefaultBoat : Boat ℝ) =
      lineBoat ((⟨0, 0⟩ : Vec ℝ).Add ⟨lineVel 0 * (1 / 60), 0⟩) (lineVel 0) := h
  rw [h2]
  simp [lineBoat, Vec.Add]

theorem len_unit_x : ((⟨0, 0⟩ : Vec ℝ).Sub (Vec.V 1 0)).Len = 1 := by
  simp [Vec.Sub, Vec.V, Vec.Len]

theorem C1_waypoint_progression_witness :
    ∃ e2 : Env ℝ,
      (BasicEnv [Vec.V 0 0, Vec.V 3 0] [NewDefaultBoat] : Env ℝ).Step (1 / 60) = some e2 ∧
      e2.CurrentPoints[0]? = some 1 ∧ e2.NumWaypointsReached[0]? = some 1 := by
  obtain ⟨e2, h1, _, _, hhit, _⟩ :=
    C1_waypoint_progression (BasicEnv [Vec.V 0 0, Vec.V 3 0] [NewDefaultBoat] : Env ℝ)
      (1 / 60) (basicEnv_wellFormed _ _ (by simp)) 0 NewDefaultBoat 0 0 (Vec.V 0 0)
      rfl rfl rfl rfl
  have hpos : (moveBoat (BasicEnv [Vec.V 0 0, Vec.V 3 0] [NewDefaultBoat] : Env ℝ).WindVec
      (BasicEnv [Vec.V 0 0, Vec.V 3 0] [NewDefaultBoat] : Env ℝ).WindForceMultiplier
      (1 / 60) NewDefaultBoat).Pos = ⟨lineVel 0 * (1 / 60), 0⟩ := default_first_step_pos
  have hl := lineVel_bounds 0 (le_refl 0) (by norm_num)
  have hsub : (⟨lineVel 0 * (1 / 60), 0⟩ : Vec ℝ).Sub (Vec.V 0 0) =
      ⟨lineVel 0 * (1 / 60), 0⟩ := by
    simp [Vec.Sub, Vec.V]
  have hclose : ((moveBoat (BasicEnv [Vec.V 0 0, Vec.V 3 0] [NewDefaultBoat] : Env ℝ).WindVec
      (BasicEnv [Vec.V 0 0, Vec.V 3 0] [NewDefaultBoat] : Env ℝ).WindForceMultiplier
      (1 / 60) NewDefaultBoat).Pos.Sub (Vec.V 0 0)).Len ≤
      (BasicEnv [Vec.V 0 0, Vec.V 3 0] [NewDefaultBoat] : Env ℝ).PointHitDist := by
    rw [hpos, hsub, len_of_y_zero _ (by linarith)]
    simp only [BasicEnv]
    linarith
  obtain ⟨a, _, _, _, c⟩ := hhit hclose
  exact ⟨e2, h1, a, c⟩

theorem C3_control_clamping_witness :
    ∃ (e2 : Env ℝ) (b2 : Boat ℝ),
      (BasicEnv [Vec.V 3 4]
        [{ (NewDefaultBoat : Boat ℝ) with MaxSailAngle := 1, SailAngle := 5 }]).Step (1 / 60)
        = some e2 ∧
      e2.Boats[0]? = some b2 ∧ -1 ≤ b2.SailAngle ∧ b2.SailAngle ≤ 1 := by
  obtain ⟨e2, b2, h1, h2, _, _, h3, _⟩ :=
    C3_control_clamping
      (BasicEnv [Vec.V 3 4]
        [{ (NewDefaultBoat : Boat ℝ) with MaxSailAngle := 1, SailAngle := 5 }])
      (1 / 60) (basicEnv_wellFormed _ _ (by simp)) 0
      { (NewDefaultBoat : Boat ℝ) with MaxSailAngle := 1, SailAngle := 5 } rfl
      (by norm_num)
      (by
        have hpi := Real.pi_pos
        simp only [NewDefaultBoat, goPi_real]
        linarith)
  exact ⟨e2, b2, h1, h2, h3.1, h3.2⟩

theorem C4_fitness_shape_witness :
    fitnessValue (0 : ℝ) 0 ≤ fitnessValue 0 1 ∧ fitnessValue (1 : ℝ) 0 < fitnessValue 0 0 :=
  ⟨(C4_fitness_shape (BasicEnv [Vec.V 3 4] [NewDefaultBoat]) (basicEnv_wellFormed _ _ (by simp))
      0 1 0 1 (le_refl 0) (by norm_num) (by norm_num)).1,
   (C4_fitness_shape (BasicEnv [Vec.V 3 4] [NewDefaultBoat]) (basicEnv_wellFormed _ _ (by simp))
      0 1 0 1 (le_refl 0) (by norm_num) (by norm_num)).2.1⟩

theorem C5_zero_relative_wind_witness :
    windSailForce (Vec.V 2 0) (clampControls (lineBoat (⟨0, 0⟩ : Vec ℝ) 2)) = ⟨0, 0⟩ ∧
    (afterWind (Vec.V 2 0) 1 (1 / 60) (lineBoat (⟨0, 0⟩ : Vec ℝ) 2)).Vel = ⟨2, 0⟩ :=
  ⟨(C5_zero_relative_wind (Vec.V 2 0) 1 (1 / 60) (lineBoat (⟨0, 0⟩ : Vec ℝ) 2) rfl).2.2.2.1,
   (C5_zero_relative_wind (Vec.V 2 0) 1 (1 / 60) (lineBoat (⟨0, 0⟩ : Vec ℝ) 2) rfl).2.2.2.2⟩

theorem C6_observation_shape_witness :
    ∃ ins : List (List ℝ),
      (BasicEnv [Vec.V 3 4] [NewDefaultBoat] : Env ℝ).GetInputs = some ins ∧
      ins.length = 1 := by
  obtain ⟨ins, h1, h2, _⟩ :=
    C6_observation_shape (BasicEnv [Vec.V 3 4] [NewDefaultBoat] : Env ℝ)
      (basicEnv_wellFormed _ _ (by simp))
      (by
        intro b hb
        have hb2 : b = NewDefaultBoat := by simpa [BasicEnv] using hb
        subst hb2
        have hpi := Real.pi_pos
        simp only [NewDefaultBoat, goPi_real]
        refine ⟨by linarith, by linarith, ⟨by linarith, by linarith⟩, by linarith, by linarith⟩)
  exact ⟨ins, h1, h2⟩

theorem C7_becalmed_boat_stays_put_witness :
    ∃ (e2 : Env ℝ) (b2 : Boat ℝ),
      Env.Step { (BasicEnv [Vec.V 3 4]
          [{ (NewDefaultBoat : Boat ℝ) with RudderAngle := 1, RotVel := 1 }])
          with WindVec := ⟨0, 0⟩ } (1 / 60) = some e2 ∧
      e2.Boats[0]? = some b2 ∧ b2.Vel = ⟨0, 0⟩ ∧ b2.Pos = ⟨0, 0⟩ := by
  obtain ⟨e2, b2, h1, h2, h3, h4, _⟩ :=
    C7_becalmed_boat_stays_put
      { (BasicEnv [Vec.V 3 4]
          [{ (NewDefaultBoat : Boat ℝ) with RudderAngle := 1, RotVel := 1 }])
        with WindVec := ⟨0, 0⟩ } (1 / 60)
      (basicEnv_wellFormed [Vec.V 3 4]
        [{ (NewDefaultBoat : Boat ℝ) with RudderAngle := 1, RotVel := 1 }] (by simp)) 0
      { (NewDefaultBoat : Boat ℝ) with RudderAngle := 1, RotVel := 1 } rfl rfl rfl
  exact ⟨e2, b2, h1, h2, h3, h4⟩

theorem len_on_x_axis (x : ℝ) : (⟨x, 0⟩ : Vec ℝ).Len = |x| := by
  simp only [Vec.Len, goSqrt_real, mul_zero, add_zero]
  exact Real.sqrt_mul_self_eq_abs x

theorem C8_at_hit_distance_witness :
    ∃ e2 : Env ℝ,
      (BasicEnv [Vec.V 1 0, Vec.V 5 5] [NewDefaultBoat] : Env ℝ).Step (1 / 60) = some e2 ∧
      e2.CurrentPoints[0]? = some 1 ∧ e2.NumWaypointsReached[0]? = some 1 := by
  obtain ⟨e2, h1, hadv, _, _⟩ :=
    C8_at_hit_distance (BasicEnv [Vec.V 1 0, Vec.V 5 5] [NewDefaultBoat] : Env ℝ) (1 / 60)
      (basicEnv_wellFormed _ _ (by simp)) 0 NewDefaultBoat 0 0 (Vec.V 1 0)
      rfl rfl rfl rfl len_unit_x
  have hpos : (moveBoat (BasicEnv [Vec.V 1 0, Vec.V 5 5] [NewDefaultBoat] : Env ℝ).WindVec
      (BasicEnv [Vec.V 1 0, Vec.V 5 5] [NewDefaultBoat] : Env ℝ).WindForceMultiplier
      (1 / 60) NewDefaultBoat).Pos = ⟨lineVel 0 * (1 / 60), 0⟩ := default_first_step_pos
  have hl := lineVel_bounds 0 (le_refl 0) (by norm_num)
  have hsub : (⟨lineVel 0 * (1 / 60), 0⟩ : Vec ℝ).Sub (Vec.V 1 0) =
      ⟨lineVel 0 * (1 / 60) - 1, 0⟩ := by
    simp [Vec.Sub, Vec.V]
  have hclose : ((moveBoat (BasicEnv [Vec.V 1 0, Vec.V 5 5] [NewDefaultBoat] : Env ℝ).WindVec
      (BasicEnv [Vec.V 1 0, Vec.V 5 5] [NewDefaultBoat] : Env ℝ).WindForceMultiplier
      (1 / 60) NewDefaultBoat).Pos.Sub (Vec.V 1 0)).Len ≤
      (BasicEnv [Vec.V 1 0, Vec.V 5 5] [NewDefaultBoat] : Env ℝ).PointHitDist := by
    rw [hpos, hsub, len_on_x_axis, abs_le]
    simp only [BasicEnv]
    constructor
    · linarith [hl.1]
    · linarith [hl.2]
  obtain ⟨a, c⟩ := hadv hclose
  exact ⟨e2, h1, a, c⟩

theorem C10_track_in_disk_witness :
    (NewTrack (fun _ => (1 / 4 : ℝ)) 12 10).length = 10 ∧
    ∃ pt : Vec ℝ, (NewTrack (fun _ => (1 / 4 : ℝ)) 12 10)[9]? = some pt ∧
      pt.Len = Real.sqrt (1 / 4) * 12 ∧ pt.Len ≤ 12 :=
  ⟨(C10_track_in_disk (fun _ => (1 / 4 : ℝ)) 12 10 (by norm_num)
      (fun _ => ⟨by norm_num, by norm_num⟩)).1,
   (C10_track_in_disk (fun _ => (1 / 4 : ℝ)) 12 10 (by norm_num)
      (fun _ => ⟨by norm_num, by norm_num⟩)).2.1 9 (by norm_num)⟩

end Witnesses

/-! ## The direction of the sail force -/

section SailForce

theorem windSailForce_eq {K : Type} [LinearOrderedField K] [GoMath K]
    (windVec : Vec K) (b : Boat K) :
    windSailForce windVec b = (sailNormal windVec b).Scaled
      (-2 * b.SailArea * (relativeWindVec windVec b).Dot (sailNormal windVec b) *
        (sailNormal windVec b).Dot (relativeWindVec windVec b).Unit) := by
  simp only [windSailForce, reflectVec, Vec.Sub, Vec.Scaled, Vec.Dot]
  ext
  · simp only
    ring
  · simp only
    ring

theorem sailNormal_dot_unit_nonpos {K : Type} [LinearOrderedField K] [GoMath K]
    (windVec : Vec K) (b : Boat K) :
    (sailNormal windVec b).Dot (relativeWindVec windVec b).Unit ≤ 0 := by
  unfold sailNormal
  simp only
  split_ifs with h
  · have hneg : ∀ n u : Vec K, (n.Scaled (-1)).Dot u = -(n.Dot u) := by
      intro n u
      simp only [Vec.Scaled, Vec.Dot]
      ring
    rw [hneg]
    linarith
  · exact not_lt.mp h

theorem len_pos_of_ne_zero (w : Vec ℝ) (h : ¬ (w.X = 0 ∧ w.Y = 0)) : 0 < w.Len := by
  simp only [Vec.Len, goSqrt_real]
  apply Real.sqrt_pos.mpr
  by_cases hx : w.X = 0
  · have hy : w.Y ≠ 0 := fun hy => h ⟨hx, hy⟩
    have h1 := mul_self_pos.mpr hy
    have h2 := mul_self_nonneg w.X
    linarith
  · have h1 := mul_self_pos.mpr hx
    have h2 := mul_self_nonneg w.Y
    linarith

theorem dot_unit (n w : Vec ℝ) (h : ¬ (w.X = 0 ∧ w.Y = 0)) :
    n.Dot w.Unit = n.Dot w / w.Len := by
  simp only [Vec.Unit, if_neg h, Vec.Scaled, Vec.Dot]
  ring

theorem dot_comm_vec {K : Type} [LinearOrderedField K] (u v : Vec K) :
    u.Dot v = v.Dot u := by
  simp only [Vec.Dot]
  ring

/-- C11. The sail never pushes the boat against the apparent wind. For every
heading, sail angle, wind vector and boat velocity and every `SailArea >= 0`,
with `n` the oriented sail normal and `w = WindVec - Vel` the relative wind of
`Step`: `windSailForce` is a multiple `c * n` of the sail normal with `c <= 0`,
the oriented normal satisfies `n.w <= 0`, the force has a non-negative dot
product with `w`, the force is `-2 * SailArea * (w.n)^2 / |w| * n` when `w` is
not the zero vector and the zero vector when it is; and this is the force
`Step` adds to the velocity, taken at the boat with its controls clamped and
scaled by `dt * WindForceMultiplier`. -/
theorem C11_sail_force_direction (windVec : Vec ℝ) (windForceMultiplier dt : ℝ)
    (b : Boat ℝ) (hA : 0 ≤ b.SailArea) :
    (∃ c : ℝ, c ≤ 0 ∧ windSailForce windVec b = (sailNormal windVec b).Scaled c) ∧
    (sailNormal windVec b).Dot (relativeWindVec windVec b) ≤ 0 ∧
    0 ≤ (windSailForce windVec b).Dot (relativeWindVec windVec b) ∧
    (relativeWindVec windVec b ≠ ⟨0, 0⟩ →
      windSailForce windVec b = (sailNormal windVec b).Scaled
        (-2 * b.SailArea * ((relativeWindVec windVec b).Dot (sailNormal windVec b)) ^ 2 /
          (relativeWindVec windVec b).Len)) ∧
    (relativeWindVec windVec b = ⟨0, 0⟩ → windSailForce windVec b = ⟨0, 0⟩) ∧
    (afterWind windVec windForceMultiplier dt b).Vel =
      b.Vel.Add ((windSailForce windVec (clampControls b)).Scaled
        (dt * windForceMultiplier)) := by
  have hform := windSailForce_eq windVec b
  have hu := sailNormal_dot_unit_nonpos windVec b
  have hzero : relativeWindVec windVec b = ⟨0, 0⟩ → windSailForce windVec b = ⟨0, 0⟩ := by
    intro h0
    have hw : windVec = b.Vel := by
      simp only [relativeWindVec, Vec.Sub, Vec.mk.injEq] at h0
      ext
      · linarith [h0.1]
      · linarith [h0.2]
    exact windSailForce_zero windVec b hw
  by_cases hz : (relativeWindVec windVec b).X = 0 ∧ (relativeWindVec windVec b).Y = 0
  · have h0 : relativeWindVec windVec b = ⟨0, 0⟩ := by
      ext
      · exact hz.1
      · exact hz.2
    have hf := hzero h0
    refine ⟨⟨0, le_refl 0, ?_⟩, ?_, ?_, fun hne => absurd h0 hne, hzero, rfl⟩
    · rw [hf]
      simp [Vec.Scaled]
    · rw [h0]
      simp [Vec.Dot]
    · rw [hf]
      simp [Vec.Dot]
  · have hL := len_pos_of_ne_zero _ hz
    have hdu := dot_unit (sailNormal windVec b) _ hz
    have hnw : (sailNormal windVec b).Dot (relativeWindVec windVec b) ≤ 0 := by
      rw [hdu, div_le_iff₀ hL, zero_mul] at hu
      exact hu
    have hcomm := dot_comm_vec (relativeWindVec windVec b) (sailNormal windVec b)
    have hsq : 0 ≤ ((sailNormal windVec b).Dot (relativeWindVec windVec b)) ^ 2 := sq_nonneg _
    have hc : -2 * b.SailArea * (relativeWindVec windVec b).Dot (sailNormal windVec b) *
        (sailNormal windVec b).Dot (relativeWindVec windVec b).Unit =
        -2 * b.SailArea * ((relativeWindVec windVec b).Dot (sailNormal windVec b)) ^ 2 /
          (relativeWindVec windVec b).Len := by
      rw [hdu, hcomm]
      ring
    have hcle : -2 * b.SailArea * ((relativeWindVec windVec b).Dot (sailNormal windVec b)) ^ 2 /
        (relativeWindVec windVec b).Len ≤ 0 := by
      apply div_nonpos_of_nonpos_of_nonneg _ (le_of_lt hL)
      rw [hcomm]
      nlinarith [mul_nonneg hA hsq]
    rw [hc] at hform
    refine ⟨⟨_, hcle, hform⟩, hnw, ?_, fun _ => hform, hzero, rfl⟩
    have hdot : ∀ (n w : Vec ℝ) (c : ℝ), (n.Scaled c).Dot w = c * n.Dot w := by
      intro n w c
      simp only [Vec.Scaled, Vec.Dot]
      ring
    rw [hform, hdot]
    exact mul_nonneg_of_nonpos_of_nonpos hcle hnw

theorem C11_sail_force_direction_witness :
    (sailNormal (Vec.V 2 0) (NewDefaultBoat : Boat ℝ)).Dot
      (relativeWindVec (Vec.V 2 0) (NewDefaultBoat : Boat ℝ)) ≤ 0 ∧
    0 ≤ (windSailForce (Vec.V 2 0) (NewDefaultBoat : Boat ℝ)).Dot
      (relativeWindVec (Vec.V 2 0) (NewDefaultBoat : Boat ℝ)) :=
  ⟨(C11_sail_force_direction (Vec.V 2 0) 1 (1 / 60) (NewDefaultBoat : Boat ℝ)
      (by simp [NewDefaultBoat])).2.1,
   (C11_sail_force_direction (Vec.V 2 0) 1 (1 / 60) (NewDefaultBoat : Boat ℝ)
      (by simp [NewDefaultBoat])).2.2.1⟩

end SailForce

end NeatSail
